import Mathlib

/-!
Verification of the codec layer of `hub` (`hub/core/compression.py`).

The Python source is shallowly embedded: byte buffers become `List UInt8`,
numpy arrays become either shape lists (where only the shape drives control
flow) or `Sample` records carrying a shape and an element function, fallible
code returns `Except CodecError`, and external native codecs (numcodecs lz4,
python-lz4, PIL, miniaudio, PyAV) are parameters of the embedded functions,
constrained by explicit hypotheses where a theorem needs a codec fact.
-/

namespace Hub

/-- Error conditions raised by the codec layer.  Python exception classes are
mapped one-to-one onto constructors; `pyException` stands for raw Python
exceptions (`struct.error`, `AssertionError`, bare `Exception`) that callers
catch wholesale. -/
inductive CodecError where
  | sampleCompression (shape : List Nat) (compression : Option String) (message : String)
  | sampleDecompression
  | unsupportedCompression (compression : Option String)
  | corruptedSample (compression : String)
  | valueError (message : String)
  | moduleNotFound (message : String)
  | notImplemented (message : String)
  | indexError
  | zeroDivision
  | pyException (message : String)
  deriving DecidableEq, Repr

/-- The four compression-type tags of the classifier (`NONE` is represented by
`Option.none` at use sites, as in the source where `get_compression_type(None)`
is falsy). -/
inductive CompressionType where
  | byte
  | image
  | audio
  | video
  deriving DecidableEq, Repr

/-- Modelled from the spec: the classifier table of `hub/compression.py` (not
under `src/`): byte-type compression identifiers. -/
def BYTE_COMPRESSIONS : List String := ["lz4"]

/-- Modelled from the spec: image-type compression identifiers (the still and
animated image formats routed through PIL). -/
def IMAGE_COMPRESSIONS : List String :=
  ["apng", "bmp", "dib", "gif", "ico", "jpeg", "jpeg2000", "pcx", "png", "ppm",
   "sgi", "tga", "tiff", "webp", "wmf", "xbm"]

/-- Modelled from the spec: audio-type compression identifiers. -/
def AUDIO_COMPRESSIONS : List String := ["mp3", "flac", "wav"]

/-- Modelled from the spec: video-type compression identifiers. -/
def VIDEO_COMPRESSIONS : List String := ["mp4", "mkv", "avi"]

/-- Modelled from the spec: `get_compression_type` of `hub/compression.py`
(not under `src/`): maps an identifier to its type tag, `None` to a falsy
value, and unknown identifiers to `UnsupportedCompressionError`. -/
def get_compression_type (compression : Option String) :
    Except CodecError (Option CompressionType) :=
  match compression with
  | none => .ok none
  | some c =>
    if c ∈ BYTE_COMPRESSIONS then .ok (some .byte)
    else if c ∈ IMAGE_COMPRESSIONS then .ok (some .image)
    else if c ∈ AUDIO_COMPRESSIONS then .ok (some .audio)
    else if c ∈ VIDEO_COMPRESSIONS then .ok (some .video)
    else .error (.unsupportedCompression (some c))

/-- Modelled from the spec: `hub.compressions`, the set of supported
compression identifiers including `None` (raw storage). -/
def hub_compressions : List (Option String) :=
  none :: (BYTE_COMPRESSIONS ++ IMAGE_COMPRESSIONS ++ AUDIO_COMPRESSIONS
            ++ VIDEO_COMPRESSIONS).map some

/-- Result of `compress_bytes`: either a literal byte string produced without
touching any codec, or the output of `numcodecs.lz4.compress` on the given
input (the external codec is kept symbolic and interpreted by `run`). -/
inductive ByteEncode where
  | direct (b : List UInt8)
  | viaNumcodecsCompress (input : List UInt8)
  deriving DecidableEq, Repr

/-- Interpret a symbolic `ByteEncode` result given the external
`numcodecs.lz4.compress` function. -/
def ByteEncode.run (numcodecsCompress : List UInt8 → List UInt8) :
    ByteEncode → List UInt8
  | .direct b => b
  | .viaNumcodecsCompress input => numcodecsCompress input

/-- Result of `decompress_bytes`: a literal byte string, or the output of one
of the two external lz4 decoders on the given input. -/
inductive ByteDecode where
  | direct (b : List UInt8)
  | viaLz4Frame (input : List UInt8)
  | viaNumcodecs (input : List UInt8)
  deriving DecidableEq, Repr

/-- Interpret a symbolic `ByteDecode` result given the two external decoders
(`numcodecs.lz4.decompress` and `lz4.frame.decompress`). -/
def ByteDecode.run (numcodecsDecompress lz4FrameDecompress : List UInt8 → List UInt8) :
    ByteDecode → List UInt8
  | .direct b => b
  | .viaLz4Frame input => lz4FrameDecompress input
  | .viaNumcodecs input => numcodecsDecompress input

/-- `compress_bytes(buffer, compression)` from `hub/core/compression.py`. -/
def compress_bytes (buffer : List UInt8) (compression : Option String) :
    Except CodecError ByteEncode :=
  if buffer = [] then .ok (.direct [])
  else if compression = some ("lz4") then
    if buffer = [] then .ok (.direct [])
    else .ok (.viaNumcodecsCompress buffer)
  else
    .error (.sampleCompression [buffer.length] compression ("Not a byte compression"))

/-- The 4-byte magic prefix of the python-lz4 frame container,
`b"\x04\x22\x4d\x18"` in the source. -/
def LZ4_FRAME_MAGIC : List UInt8 := [0x04, 0x22, 0x4D, 0x18]

/-- The legacy 5-byte empty-payload marker `b"\x00\x00\x00\x00\x00"`. -/
def LZ4_EMPTY_MARKER : List UInt8 := [0x00, 0x00, 0x00, 0x00, 0x00]

/-- `decompress_bytes(buffer, compression)` from `hub/core/compression.py`.
`lz4Installed` models the `_LZ4_INSTALLED` import flag. -/
def decompress_bytes (lz4Installed : Bool) (buffer : List UInt8)
    (compression : Option String) : Except CodecError ByteDecode :=
  if buffer = [] then .ok (.direct [])
  else if compression = some ("lz4") then
    if buffer = LZ4_EMPTY_MARKER then .ok (.direct [])
    else if buffer.take 4 = LZ4_FRAME_MAGIC then
      if ¬ lz4Installed then
        .error (.moduleNotFound ("Module lz4 not found. Install using pip install lz4."))
      else .ok (.viaLz4Frame buffer)
    else .ok (.viaNumcodecs buffer)
  else .error .sampleDecompression

/-! PNG fast path -/

/-- Big-endian 32-bit read of four bytes. -/
def be32 (b0 b1 b2 b3 : UInt8) : Nat :=
  b0.toNat * 16777216 + b1.toNat * 65536 + b2.toNat * 256 + b3.toNat

/-- Big-endian 16-bit read of two bytes. -/
def be16 (b0 b1 : UInt8) : Nat := b0.toNat * 256 + b1.toNat

/-- Two's-complement reinterpretation of a 32-bit big-endian field as a signed
integer (the source unpacks the PNG width and height with `">ii"`). -/
def toSigned32 (n : Nat) : Int :=
  if n < 2147483648 then (n : Int) else (n : Int) - 4294967296

/-- `_NATIVE_INT32` for a little-endian host (`sys.byteorder == "little"`). -/
def NATIVE_INT32 : String := "<i4"

/-- `_read_png_shape_and_dtype(f)` from `hub/core/compression.py`: reads the
IHDR fields at fixed offsets (width at 16, height at 20, bit depth at 24,
color type at 25) and derives shape and dtype string.  Inputs shorter than the
header region make `struct.unpack` or tuple unpacking raise, modelled by the
leading length guards. -/
def _read_png_shape_and_dtype (f : List UInt8) :
    Except CodecError (List Int × String) :=
  if f.length < 24 then .error (.pyException ("struct.error"))
  else if f.length < 26 then .error (.pyException ("ValueError"))
  else
    let width := toSigned32 (be32 (f.getD 16 0) (f.getD 17 0) (f.getD 18 0) (f.getD 19 0))
    let height := toSigned32 (be32 (f.getD 20 0) (f.getD 21 0) (f.getD 22 0) (f.getD 23 0))
    let bits := (f.getD 24 0).toNat
    let colors := (f.getD 25 0).toNat
    if colors = 0 then
      let typstr := if bits = 1 then "|b1" else if bits = 16 then NATIVE_INT32 else "|u1"
      .ok ([height, width], typstr)
    else
      let nlayers : Option Nat :=
        if colors = 2 then some 3
        else if colors = 3 then none
        else if colors = 4 then (if bits = 8 then some 2 else some 4)
        else some 4
      match nlayers with
      | none => .ok ([height, width], "|u1")
      | some n => .ok ([height, width, (n : Int)], "|u1")

/-! JPEG fast path -/

/-- Second bytes of the two-byte `0xFF`-prefixed markers in `_JPEG_SOFS`, in
source order: the SOF-like markers, then the skip markers (`0xCC`, `0xDC`,
`0xDD`, `0xDF`, the sixteen APPn markers, DQT, COM) and finally SOS. -/
def JPEG_SOF_BYTES : List UInt8 :=
  [0xc0, 0xc2, 0xc1, 0xc3, 0xc5, 0xc6, 0xc7, 0xc9, 0xca, 0xcb, 0xcd, 0xce, 0xcf, 0xde,
   0xcc, 0xdc, 0xdd, 0xdf,
   0xe0, 0xe1, 0xe2, 0xe3, 0xe4, 0xe5, 0xe6, 0xe7, 0xe8, 0xe9, 0xea, 0xeb, 0xec, 0xed,
   0xee, 0xef,
   0xdb, 0xfe, 0xda]

/-- `_JPEG_SKIP_MARKERS = set(_JPEG_SOFS[14:])`. -/
def JPEG_SKIP_BYTES : List UInt8 := JPEG_SOF_BYTES.drop 14

/-- Whether a two-byte marker of `_JPEG_SOFS` starts at index `idx` of `buf`
(the alternation regex `_JPEG_SOFS_RE` matches two full bytes, so a trailing
lone `0xFF` does not match; `getD` returns `0` out of range, which is not a
marker byte). -/
def isJpegMarkerAt (buf : List UInt8) (idx : Nat) : Bool :=
  buf.getD idx 0 == 0xff && JPEG_SOF_BYTES.contains (buf.getD (idx + 1) 0)

/-- Leftmost match of the marker alternation at or after `offset`
(`_re_find_first(_JPEG_SOFS_RE, mview[offset:])`, with the offset added
back). -/
def findJpegMarker (buf : List UInt8) (offset : Nat) : Option Nat :=
  (List.range buf.length).find? (fun idx => decide (offset ≤ idx) && isJpegMarkerAt buf idx)

/-- `int.from_bytes(buf[i : i + 2], "big")` including Python's short-slice
behaviour at the end of the buffer. -/
def fromBytes2 (buf : List UInt8) (i : Nat) : Nat :=
  if i + 1 < buf.length then be16 (buf.getD i 0) (buf.getD (i + 1) 0)
  else if i < buf.length then (buf.getD i 0).toNat
  else 0

/-- The marker-scanning loop shared by `_read_jpeg_shape_from_buffer` and
`_verify_jpeg_buffer`: repeatedly find the next marker; stop on SOS (`0xFFDA`,
the last entry of `_JPEG_SOFS`); otherwise jump past the segment using its
big-endian length field, recording the marker as the start-of-frame candidate
unless it is a skip marker.  Returns the last recorded candidate index.  The
scan offset grows by at least 2 per iteration, so `buf.length` fuel is enough;
exhausted fuel returns the candidate recorded so far. -/
def jpegScanSof (buf : List UInt8) : Nat → Nat → Option Nat → Option Nat
  | 0, _, sofIdx => sofIdx
  | fuel + 1, offset, sofIdx =>
    match findJpegMarker buf offset with
    | none => sofIdx
    | some idx =>
      let marker := buf.getD (idx + 1) 0
      if marker = 0xda then sofIdx
      else
        let offset' := idx + fromBytes2 buf (idx + 2) + 2
        let sofIdx' := if JPEG_SKIP_BYTES.contains marker then sofIdx else some idx
        jpegScanSof buf fuel offset' sofIdx'

/-- `_read_jpeg_shape_from_buffer(buf)` from `hub/core/compression.py`: scan
for the start-of-frame, then unpack `">HHB"` (height, width, components) from
the five bytes at `sof_idx + 5`, collapsing a component count of 1 to a
2-tuple.  No end-of-image check is performed here. -/
def _read_jpeg_shape_from_buffer (buf : List UInt8) : Except CodecError (List Nat) :=
  match jpegScanSof buf (buf.length + 1) 0 none with
  | none => .error (.pyException ("Exception"))
  | some sofIdx =>
    if buf.length < sofIdx + 10 then .error (.pyException ("struct.error"))
    else
      let h := be16 (buf.getD (sofIdx + 5) 0) (buf.getD (sofIdx + 6) 0)
      let w := be16 (buf.getD (sofIdx + 7) 0) (buf.getD (sofIdx + 8) 0)
      let c := (buf.getD (sofIdx + 9) 0).toNat
      .ok (if c = 1 then [h, w] else [h, w, c])

/-- Whether the buffer contains the end-of-image marker `b"\xff\xd9"`
(`buf.find(b"\xff\xd9") != -1`). -/
def containsEOI (buf : List UInt8) : Bool :=
  (List.range buf.length).any (fun i => buf.getD i 0 == 0xff && buf.getD (i + 1) 0 == 0xd9)

/-- `_verify_jpeg_buffer(buf)` from `hub/core/compression.py`: like the shape
reader but additionally asserts the SOI prefix, that the byte pair following
the start-of-frame segment is one of DHT/DQT/DRI/SOS, and that an end-of-image
marker occurs somewhere in the buffer. -/
def _verify_jpeg_buffer (buf : List UInt8) : Except CodecError (List Nat) :=
  if ¬ (buf.take 2 = [0xff, 0xd8]) then .error (.pyException ("AssertionError"))
  else
    match jpegScanSof buf (buf.length + 1) 0 none with
    | none => .error (.pyException ("Exception"))
    | some sofIdx =>
      let seglen := fromBytes2 buf (sofIdx + 2)
      let defStart := [buf.getD (sofIdx + seglen + 2) 0, buf.getD (sofIdx + seglen + 3) 0]
      if ¬ (sofIdx + seglen + 4 ≤ buf.length ∧
            defStart ∈ [[0xff, 0xc4], [0xff, 0xdb], [0xff, 0xdd], [0xff, 0xda]]) then
        .error (.pyException ("AssertionError"))
      else if buf.length < sofIdx + 10 then .error (.pyException ("struct.error"))
      else
        let h := be16 (buf.getD (sofIdx + 5) 0) (buf.getD (sofIdx + 6) 0)
        let w := be16 (buf.getD (sofIdx + 7) 0) (buf.getD (sofIdx + 8) 0)
        let c := (buf.getD (sofIdx + 9) 0).toNat
        if ¬ containsEOI buf then .error (.pyException ("AssertionError"))
        else .ok (if c = 1 then [h, w] else [h, w, c])

/-- The `compression == "jpeg"` branch of `read_meta_from_compressed_file` for
an in-memory buffer: the fast shape read, wrapped so any failure becomes
`CorruptedSampleError("jpeg")`; the dtype string is fixed at `"|u1"`. -/
def read_meta_jpeg_from_buffer (buf : List UInt8) :
    Except CodecError (String × List Nat × String) :=
  match _read_jpeg_shape_from_buffer buf with
  | .ok shape => .ok ("jpeg", shape, "|u1")
  | .error _ => .error (.corruptedSample ("jpeg"))

/-! Audio codec (decode-only) -/

/-- `_decompress_audio(file, compression)` from `hub/core/compression.py`:
after the `_MINIAUDIO_INSTALLED` guard, the decode routine is looked up by
name in `globals()`; the embedding returns the selected routine name (the
memoryview normalisation of the input and the actual miniaudio decode are
external).  `isFilePath` models `isinstance(file, str)`. -/
def _decompress_audio (miniaudioInstalled : Bool) (isFilePath : Bool)
    (compression : String) : Except CodecError String :=
  if ¬ miniaudioInstalled then
    .error (.moduleNotFound ("Miniaudio is not installed. Run pip install hub[audio]."))
  else .ok (compression ++ "_read" ++ (if isFilePath then "_file" else "") ++ "_f32")

/-- `_read_audio_shape(file, compression)` from `hub/core/compression.py`:
same guard, selecting the `_get_info` routine whose result supplies
`(num_frames, nchannels)`. -/
def _read_audio_shape (miniaudioInstalled : Bool) (isFilePath : Bool)
    (compression : String) : Except CodecError String :=
  if ¬ miniaudioInstalled then
    .error (.moduleNotFound ("Miniaudio is not installed. Run pip install hub[audio]."))
  else .ok (compression ++ "_get" ++ (if isFilePath then "_file" else "") ++ "_info")

/-! Video codec (decode-only) -/

/-- `_open_video(file)` from `hub/core/compression.py`: the `_PYAV_INSTALLED`
guard, then `IndexError` when the container has no video stream.  The returned
container/stream pair is external, so success carries no payload here. -/
def _open_video (pyavInstalled : Bool) (hasVideoStream : Bool) :
    Except CodecError Unit :=
  if ¬ pyavInstalled then
    .error (.moduleNotFound ("PyAV is not installed. Run pip install hub[video]."))
  else if ¬ hasVideoStream then .error .indexError
  else .ok ()

/-- A demuxed packet: its presentation timestamp (`None` possible) and the
frames its decode yields. -/
structure AVPacket (F : Type) where
  pts : Option Int
  frames : List F

/-- The facts `_decompress_video` reads from an opened video stream, plus the
packet sequence `container.demux(video=0)` yields.  Container seeks reposition
the demuxer and are abstracted away: the theorems below hold for every packet
sequence, hence for the one the demuxer actually produces. -/
structure VideoStream (F : Type) where
  height : Nat
  width : Nat
  metaNframes : Nat
  fpsNum : Nat
  fpsDen : Nat
  tbNum : Nat
  tbDen : Nat
  gopSize : Nat
  packets : List (AVPacket F)

/-- `_frame_to_stamp(nframe, stream)`:
`floor(nframe / fps * (time_base.denominator / time_base.numerator))`, with
the float arithmetic of the source carried out exactly over rationals. -/
def _frame_to_stamp {F : Type} (nframe : Int) (s : VideoStream F) : Int :=
  Int.ediv (nframe * (s.fpsDen : Int) * (s.tbDen : Int)) ((s.fpsNum : Int) * (s.tbNum : Int))

/-- `math.ceil(a / b)` for integers with `b > 0`. -/
def ceilDivInt (a b : Int) : Int := -(Int.ediv (-a) b)

/-- Inner loop of `_decompress_video` over the frames of one packet: a frame
is retained when `packet.pts` is truthy (not `None`, not `0`) and at or past
the current seek target; writing past the allocated frame count is numpy's
`IndexError`.  State is `(i, seek_target, video)`. -/
def dvFrameLoop {F : Type} (pts : Option Int) (stepTime : Int) (nframes : Nat) :
    List F → Nat → Int → List F → Except CodecError (Nat × Int × List F)
  | [], i, target, video => .ok (i, target, video)
  | f :: fs, i, target, video =>
    if (match pts with | some p => decide (p ≠ 0 ∧ target ≤ p) | none => false) then
      if i < nframes then
        dvFrameLoop pts stepTime nframes fs (i + 1) (target + stepTime) (video.set i f)
      else .error .indexError
    else dvFrameLoop pts stepTime nframes fs i target video

/-- Outer loop of `_decompress_video` over demuxed packets, breaking once the
requested frame count is filled (`if i == nframes: break` runs after each
packet). -/
def dvPacketLoop {F : Type} (stepTime : Int) (nframes : Nat) :
    List (AVPacket F) → Nat → Int → List F → Except CodecError (Nat × List F)
  | [], i, _, video => .ok (i, video)
  | p :: rest, i, target, video =>
    match dvFrameLoop p.pts stepTime nframes p.frames i target video with
    | .error e => .error e
    | .ok (i', target', video') =>
      if i' = nframes then .ok (i', video')
      else dvPacketLoop stepTime nframes rest i' target' video'

/-- `_decompress_video(file, start, stop, step, reverse)` from
`hub/core/compression.py`: defaults the window, computes the output frame
count `math.ceil((stop - start) / step)`, allocates that many zero frames
(`np.zeros` raises on a negative count; Python's float division raises on
`step == 0`), runs the demux loop, and reverses the completed output when
`reverse` is set.  The seek-strategy choice (`step_seeking`, `seekable`, the
one-shot permission-error fallback) only changes which packets the demuxer
delivers and is absorbed into `s.packets`. -/
def _decompress_video {F : Type} (zeroFrame : F) (s : VideoStream F)
    (start stop step : Option Nat) (reverse : Bool) : Except CodecError (List F) :=
  let start := start.getD 0
  let stop := stop.getD s.metaNframes
  let step := step.getD 1
  if step = 0 then .error .zeroDivision
  else
    let nframesI := ceilDivInt ((stop : Int) - (start : Int)) (step : Int)
    if nframesI < 0 then .error (.valueError ("negative dimensions are not allowed"))
    else
      let nframes := nframesI.toNat
      let seekTarget := _frame_to_stamp (start : Int) s
      let stepTime := _frame_to_stamp (step : Int) s
      match dvPacketLoop stepTime nframes s.packets 0 seekTarget
          (List.replicate nframes zeroFrame) with
      | .error e => .error e
      | .ok (_, video) => .ok (if reverse then video.reverse else video)

/-! Single-array compression (shape level) -/

/-- The array shape handed to `Image.fromarray` by `to_image(array)`: a
three-dimensional `(X, Y, 1)` array with `X != 1` is squeezed to `(X, Y)`,
anything else is passed through. -/
def to_image_shape (shape : List Nat) : List Nat :=
  match shape with
  | [x, y, c] => if x ≠ 1 ∧ c = 1 then [x, y] else [x, y, c]
  | _ => shape

/-- Symbolic result of `compress_array`: which encoding path produced the
returned bytes.  `pilEncoded` records the shape of the image handed to
`img.save` (after `to_image`); `byteCompressed` stands for
`compress_bytes(array.tobytes(), compression)` on a non-empty array. -/
inductive CompressOutcome where
  | emptyBytes
  | rawTobytes (shape : List Nat)
  | byteCompressed (shape : List Nat)
  | apngEncoded (shape : List Nat)
  | pilEncoded (imageShape : List Nat)
  deriving DecidableEq, Repr

/-- `compress_array(array, compression)` from `hub/core/compression.py` at
shape level (element values never influence the control flow): empty shapes
short-circuit to empty bytes before any other check; unsupported identifiers
raise; `None` stores raw `tobytes`; byte compression routes through
`compress_bytes`; audio and video raise `NotImplementedError`; `apng` checks
the frame layout; everything else goes through `to_image` and PIL
(`TypeError`/`OSError` from the PIL encoder, wrapped as
`SampleCompressionError`, are external and not modelled). -/
def compress_array (shape : List Nat) (compression : Option String) :
    Except CodecError CompressOutcome :=
  if 0 ∈ shape then .ok .emptyBytes
  else if ¬ (compression ∈ hub_compressions) then
    .error (.unsupportedCompression compression)
  else
    match compression with
    | none => .ok (.rawTobytes shape)
    | some c =>
      match get_compression_type (some c) with
      | .error e => .error e
      | .ok t =>
        if t = some .byte then .ok (.byteCompressed shape)
        else if t = some .audio then
          .error (.notImplemented ("Compressing raw audio data is not yet supported."))
        else if t = some .video then
          .error (.notImplemented ("Compressing raw video data is not yet supported."))
        else if c = "apng" then
          if shape.length = 3 ∨ (shape.length = 4 ∧ shape.getD 3 0 ≤ 4) then
            .ok (.apngEncoded shape)
          else .error (.sampleCompression shape (some c) ("Unexpected shape."))
        else .ok (.pilEncoded (to_image_shape shape))

/-- Symbolic result of `decompress_array`: which decoding path handled the
buffer.  `zeros` is the zero-shape short-circuit of the PIL path;
`byteFrombuffer` is `np.frombuffer(decompress_bytes(...)).reshape(shape)`
(reshape failures on codec output are external and not modelled — the
theorems only use it where the byte count is exact); the `Call` constructors
mark the paths that hand the buffer to a decoder. -/
inductive DecompressOutcome where
  | zeros (shape : List Nat) (dtype : Option String)
  | byteFrombuffer (decoded : ByteDecode) (shape : List Nat) (dtype : String)
  | audioCall (buffer : List UInt8) (compression : Option String)
  | videoCall (buffer : List UInt8)
  | apngCall (buffer : List UInt8)
  | pilDecoded (buffer : List UInt8) (reshapeTo : Option (List Nat))
  deriving DecidableEq, Repr

/-- `decompress_array(buffer, shape, dtype, compression, ...)` from
`hub/core/compression.py` at path level: byte compressions require `dtype`
and `shape` and route through `decompress_bytes` (failures normalised to
`SampleDecompressionError`); audio, video and `apng` hand the buffer to their
decoders unconditionally; only the final PIL path short-circuits a target
shape containing 0 to `np.zeros(shape, dtype)` without touching the buffer. -/
def decompress_array (lz4Installed : Bool) (buffer : List UInt8)
    (shape : Option (List Nat)) (dtype : Option String)
    (compression : Option String) : Except CodecError DecompressOutcome :=
  match get_compression_type compression with
  | .error e => .error e
  | .ok t =>
    if t = some .byte then
      match dtype, shape with
      | some dt, some sh =>
        match decompress_bytes lz4Installed buffer compression with
        | .error _ => .error .sampleDecompression
        | .ok d => .ok (.byteFrombuffer d sh dt)
      | _, _ =>
        .error (.valueError ("dtype and shape must be specified for byte compressions."))
    else if t = some .audio then .ok (.audioCall buffer compression)
    else if t = some .video then .ok (.videoCall buffer)
    else if compression = some ("apng") then .ok (.apngCall buffer)
    else
      match shape with
      | some sh =>
        if 0 ∈ sh then .ok (.zeros sh dtype) else .ok (.pilDecoded buffer (some sh))
      | none => .ok (.pilDecoded buffer none)

/-- A decompression outcome that yields a zero-filled array of the requested
shape without handing the buffer to any codec: the `np.zeros` short-circuit,
or the byte path on literally empty decompressed bytes reshaped to a
zero-element shape. -/
def DecompressOutcome.zeroFilledNoCodec : DecompressOutcome → List Nat → Prop
  | .zeros s _, shape => s = shape
  | .byteFrombuffer (.direct b) s _, shape => b = [] ∧ s = shape ∧ shape.prod = 0
  | _, _ => False

/-! Multi-sample tiler (content level) -/

/-- A numpy array as the tiler sees it: at least two axes (`h`, `w`) plus
trailing dimensions `tr`, a dtype name, and an element function indexed by
row, column and flattened trailing index (`k < tr.prod`); values outside
those bounds are irrelevant.  `α` is the element type of the dtype. -/
structure Sample (α : Type) where
  dtype : String
  h : Nat
  w : Nat
  tr : List Nat
  data : Nat → Nat → Nat → α

/-- `array.shape`. -/
def Sample.shape {α : Type} (s : Sample α) : List Nat := s.h :: s.w :: s.tr

/-- Flattened size of the trailing dimensions. -/
def Sample.channels {α : Type} (s : Sample α) : Nat := s.tr.prod

/-- The elements of the array in C (row-major) order. -/
def Sample.cells {α : Type} (s : Sample α) : List α :=
  (List.range s.h).flatMap (fun y =>
    (List.range s.w).flatMap (fun x =>
      (List.range s.channels).map (fun k => s.data y x k)))

/-- The serialisation of one numpy dtype: the element byte width
(`np.dtype(d).itemsize`) with encode and decode functions, plus the dtype's
zero element (`np.zeros` fill). -/
structure DtypeCodec (α : Type) where
  zero : α
  itemsize : Nat
  enc : α → List UInt8
  dec : List UInt8 → α

/-- `array.tobytes()`: the C-order elements, each serialised. -/
def Sample.tobytes {α : Type} (s : Sample α) (cd : DtypeCodec α) : List UInt8 :=
  (s.cells.map cd.enc).flatten

/-- `np.frombuffer(bytes, dtype=dtype).reshape(shape)`: element `(y, x, k)`
of the result decodes the `itemsize` bytes at the C-order offset. -/
def frombuffer_reshape {α : Type} (cd : DtypeCodec α) (bytes' : List UInt8)
    (shape : List Nat) (dtype : String) : Sample α :=
  let w := shape.getD 1 0
  let c := (shape.drop 2).prod
  { dtype := dtype
    h := shape.getD 0 0
    w := w
    tr := shape.drop 2
    data := fun y x k =>
      cd.dec ((bytes'.drop (((y * w + x) * c + k) * cd.itemsize)).take cd.itemsize) }

/-- Element-wise equality of two arrays: same dtype, same shape, same
elements at every in-range index. -/
def Sample.PEq {α : Type} (a b : Sample α) : Prop :=
  a.dtype = b.dtype ∧ a.h = b.h ∧ a.w = b.w ∧ a.tr = b.tr ∧
    ∀ y < a.h, ∀ x < a.w, ∀ k < a.channels, a.data y x k = b.data y x k

instance {α : Type} [DecidableEq α] (a b : Sample α) : Decidable (a.PEq b) := by
  unfold Sample.PEq; infer_instance

/-- The external codecs `compress_multiple`/`decompress_multiple` touch: the
dtype serialisation, the PIL image encoder/decoder (`img.save` via
`compress_array`, `Image.open`+`np.array` via `decompress_array`), the apng
encoder, and the lz4 functions of the byte codec. -/
structure Codecs (α : Type) where
  cd : DtypeCodec α
  imgEnc : Sample α → List UInt8
  imgDec : List UInt8 → Sample α
  apngEnc : Sample α → List UInt8
  numcodecsCompress : List UInt8 → List UInt8
  numcodecsDecompress : List UInt8 → List UInt8
  lz4FrameDecompress : List UInt8 → List UInt8
  lz4Installed : Bool

/-- `_get_bounding_shape(shapes)` from `hub/core/compression.py`: all trailing
dimensions beyond the first two axes must agree or a `ValueError` is raised
(at the first offender — the error carries no shape, so checking them all is
equivalent); the box is `(max of first dims, sum of second dims) + trailing`.
Python's `max` over the non-empty generator equals `foldr max 0` on `Nat`. -/
def _get_bounding_shape (shapes : List (List Nat)) : Except CodecError (List Nat) :=
  match shapes with
  | [] => .ok [0, 0, 0]
  | s0 :: _ =>
    let channelsShape := s0.drop 2
    if shapes.all (fun s => s.drop 2 = channelsShape) then
      .ok ((shapes.map (fun s => s.getD 0 0)).foldr max 0
            :: (shapes.map (fun s => s.getD 1 0)).sum :: channelsShape)
    else
      .error (.valueError ("The data cannot be compressed as the number of channels does not match."))

/-- `np.zeros(shape, dtype)` for a bounding shape. -/
def zeros_sample {α : Type} (z : α) (dtype : String) (shape : List Nat) : Sample α :=
  { dtype := dtype
    h := shape.getD 0 0
    w := shape.getD 1 0
    tr := shape.drop 2
    data := fun _ _ _ => z }

/-- `canvas[: arr.shape[0], x0 : x0 + arr.shape[1]] = arr`. -/
def place_sample {α : Type} (canvas arr : Sample α) (x0 : Nat) : Sample α :=
  { canvas with
    data := fun y x k =>
      if y < arr.h ∧ x0 ≤ x ∧ x < x0 + arr.w then arr.data y (x - x0) k
      else canvas.data y x k }

/-- The placement loop of `compress_multiple`, accumulating `next_x`. -/
def place_all {α : Type} : Sample α → List (Sample α) → Nat → Sample α
  | canvas, [], _ => canvas
  | canvas, a :: rest, x0 => place_all (place_sample canvas a x0) rest (x0 + a.w)

/-- `compress_array(array, compression)` at content level, as invoked by
`compress_multiple` on the canvas: identical control flow to the shape-level
`compress_array`, but producing actual bytes through the codec parameters.
The `to_image` squeeze only changes the in-memory PIL representation, not
which bytes `imgEnc` stands for. -/
def compress_array_data {α : Type} (K : Codecs α) (array : Sample α)
    (compression : Option String) : Except CodecError (List UInt8) :=
  if 0 ∈ array.shape then .ok []
  else if ¬ (compression ∈ hub_compressions) then
    .error (.unsupportedCompression compression)
  else
    match compression with
    | none => .ok (array.tobytes K.cd)
    | some c =>
      match get_compression_type (some c) with
      | .error e => .error e
      | .ok t =>
        if t = some .byte then
          match compress_bytes (array.tobytes K.cd) (some c) with
          | .error e => .error e
          | .ok e => .ok (e.run K.numcodecsCompress)
        else if t = some .audio then
          .error (.notImplemented ("Compressing raw audio data is not yet supported."))
        else if t = some .video then
          .error (.notImplemented ("Compressing raw video data is not yet supported."))
        else if c = "apng" then
          if array.shape.length = 3 ∨ (array.shape.length = 4 ∧ array.shape.getD 3 0 ≤ 4) then
            .ok (K.apngEnc array)
          else .error (.sampleCompression array.shape (some c) ("Unexpected shape."))
        else .ok (K.imgEnc array)

/-- `compress_multiple(arrays, compression)` from `hub/core/compression.py`:
empty input gives empty bytes; all samples must share the first sample's
dtype (`SampleCompressionError` at the first offender otherwise); byte
compressions concatenate the raw `tobytes` streams; audio, video and `apng`
are unsupported; otherwise the samples are tiled horizontally into a
zero-filled bounding canvas which is compressed as one sample. -/
def compress_multiple {α : Type} (K : Codecs α) (arrays : List (Sample α))
    (compression : Option String) : Except CodecError (List UInt8) :=
  match arrays with
  | [] => .ok []
  | a0 :: _ =>
    let dtype := a0.dtype
    match arrays.find? (fun arr => arr.dtype != dtype) with
    | some arr =>
      .error (.sampleCompression arr.shape compression
        ("All arrays expected to have same dtype."))
    | none =>
      match get_compression_type compression with
      | .error e => .error e
      | .ok t =>
        if t = some .byte then
          match compress_bytes ((arrays.map (fun arr => arr.tobytes K.cd)).flatten)
              compression with
          | .error e => .error e
          | .ok e => .ok (e.run K.numcodecsCompress)
        else if t = some .audio then
          .error (.notImplemented ("compress_multiple does not support audio samples."))
        else if t = some .video then
          .error (.notImplemented ("compress_multiple does not support video samples."))
        else if compression = some ("apng") then
          .error (.notImplemented ("compress_multiple does not support apng samples."))
        else
          match _get_bounding_shape (arrays.map Sample.shape) with
          | .error e => .error e
          | .ok bshape =>
            let canvas := place_all (zeros_sample K.cd.zero dtype bshape) arrays 0
            compress_array_data K canvas compression

/-- The byte-path slicing loop of `decompress_multiple`: each shape consumes
`np.prod(shape) * itemsize` bytes from the front of the decompressed
stream. -/
def byte_slice_arrays {α : Type} (cd : DtypeCodec α) (dtype : String) :
    List UInt8 → List (List Nat) → List (Sample α)
  | _, [] => []
  | buf, shape :: rest =>
    let nbytes := shape.prod * cd.itemsize
    frombuffer_reshape cd (buf.take nbytes) shape dtype
      :: byte_slice_arrays cd dtype (buf.drop nbytes) rest

/-- `canvas[:a, b:c]` with numpy's clamping slice semantics. -/
def Sample.sliceHW {α : Type} (s : Sample α) (a b c : Nat) : Sample α :=
  { dtype := s.dtype
    h := min a s.h
    w := min c s.w - min b s.w
    tr := s.tr
    data := fun y x k => s.data y (min b s.w + x) k }

/-- The canvas-path slicing loop of `decompress_multiple`, accumulating
`next_x`. -/
def canvas_slice_arrays {α : Type} (canvas : Sample α) :
    List (List Nat) → Nat → List (Sample α)
  | [], _ => []
  | shape :: rest, nextX =>
    canvas.sliceHW (shape.getD 0 0) nextX (nextX + shape.getD 1 0)
      :: canvas_slice_arrays canvas rest (nextX + shape.getD 1 0)

/-- `decompress_multiple(buffer, shapes, dtype, compression)` from
`hub/core/compression.py`: an empty buffer yields the empty list; byte
compressions decompress once and slice sequentially by byte count; every
other identifier decompresses the canvas through PIL
(`decompress_array(buffer)` with no shape or compression) and slices
horizontal regions in the order the shapes are given. -/
def decompress_multiple {α : Type} (K : Codecs α) (buffer : List UInt8)
    (shapes : List (List Nat)) (dtype : String) (compression : Option String) :
    Except CodecError (List (Sample α)) :=
  if buffer = [] then .ok []
  else
    match compression with
    | some c =>
      match get_compression_type (some c) with
      | .error e => .error e
      | .ok t =>
        if t = some .byte then
          match decompress_bytes K.lz4Installed buffer (some c) with
          | .error e => .error e
          | .ok d =>
            .ok (byte_slice_arrays K.cd dtype
              (d.run K.numcodecsDecompress K.lz4FrameDecompress) shapes)
        else .ok (canvas_slice_arrays (K.imgDec buffer) shapes 0)
    | none => .ok (canvas_slice_arrays (K.imgDec buffer) shapes 0)

/-- The bounding canvas `compress_multiple` builds for a non-empty sample
list whose trailing dimensions all agree with the first sample's: a
zero-filled array of shape (max height, summed width, shared trailing dims)
with every sample placed at its horizontal offset. -/
def tiler_canvas {α : Type} (z : α) (dtype : String) (a0 : Sample α)
    (rest : List (Sample α)) : Sample α :=
  place_all (zeros_sample z dtype
    (((a0 :: rest).map (fun a => a.h)).foldr max 0
      :: ((a0 :: rest).map (fun a => a.w)).sum :: a0.tr)) (a0 :: rest) 0

deriving instance DecidableEq for Except

/-! Helper lemmas about the classifier -/

theorem image_not_byte (c : String) (hc : c ∈ IMAGE_COMPRESSIONS) :
    c ∉ BYTE_COMPRESSIONS := by
  intro hb
  have : c = "lz4" := by simpa [BYTE_COMPRESSIONS] using hb
  subst this
  revert hc
  decide

theorem get_type_image (c : String) (hc : c ∈ IMAGE_COMPRESSIONS) :
    get_compression_type (some c) = .ok (some .image) := by
  simp only [get_compression_type]
  rw [if_neg (image_not_byte c hc), if_pos hc]

theorem mem_hub_of_image (c : String) (hc : c ∈ IMAGE_COMPRESSIONS) :
    some c ∈ hub_compressions := by
  simp only [hub_compressions, List.mem_cons, List.mem_map]
  exact Or.inr ⟨c, by simp [List.mem_append, hc], rfl⟩

/-- C10: for every compression identifier, including non-byte-type and
unknown ones, `compress_bytes` on an empty buffer returns empty bytes without
raising — the `SampleCompressionError` branch is unreachable for empty
input. -/
theorem compress_bytes_empty_ok (compression : Option String) :
    compress_bytes [] compression = .ok (.direct []) := by
  simp [compress_bytes]

/-- C3: `decompress_bytes` with the lz4 identifier returns empty bytes for
empty input and for the 5-byte empty marker; it routes to the python-lz4
frame decoder exactly when the buffer begins with the 4-byte magic prefix;
and the two container layouts of one logical payload decode to the same
bytes. -/
theorem decompress_bytes_lz4_containers
    (buf p eF eB : List UInt8) (dF dB : List UInt8 → List UInt8)
    (hF : dF eF = p) (hB : dB eB = p)
    (hFm : eF.take 4 = LZ4_FRAME_MAGIC) (hBm : eB.take 4 ≠ LZ4_FRAME_MAGIC)
    (hBne : eB ≠ []) (hBmk : eB ≠ LZ4_EMPTY_MARKER) :
    decompress_bytes true [] (some ("lz4")) = .ok (.direct []) ∧
    decompress_bytes true LZ4_EMPTY_MARKER (some ("lz4")) = .ok (.direct []) ∧
    (decompress_bytes true buf (some ("lz4")) = .ok (.viaLz4Frame buf) ↔
      buf.take 4 = LZ4_FRAME_MAGIC) ∧
    (decompress_bytes true eF (some ("lz4"))).map (ByteDecode.run dB dF) = .ok p ∧
    (decompress_bytes true eB (some ("lz4"))).map (ByteDecode.run dB dF) = .ok p := by
  have magic_ne_nil : ∀ b : List UInt8, b.take 4 = LZ4_FRAME_MAGIC → b ≠ [] := by
    intro b hb he
    rw [he] at hb
    exact absurd hb (by decide)
  have magic_ne_marker : ∀ b : List UInt8, b.take 4 = LZ4_FRAME_MAGIC →
      b ≠ LZ4_EMPTY_MARKER := by
    intro b hb he
    rw [he] at hb
    exact absurd hb (by decide)
  refine ⟨by decide, by decide, ?_, ?_, ?_⟩
  · constructor
    · intro h
      by_cases h1 : buf = []
      · simp [decompress_bytes, h1] at h
      · by_cases h2 : buf = LZ4_EMPTY_MARKER
        · simp [decompress_bytes, h1, h2] at h
        · by_cases h3 : buf.take 4 = LZ4_FRAME_MAGIC
          · exact h3
          · simp [decompress_bytes, h1, h2, h3] at h
    · intro h3
      simp [decompress_bytes, magic_ne_nil buf h3, magic_ne_marker buf h3, h3]
  · simp [decompress_bytes, magic_ne_nil eF hFm, magic_ne_marker eF hFm, hFm,
      Except.map, ByteDecode.run, hF]
  · simp [decompress_bytes, hBne, hBmk, hBm, Except.map, ByteDecode.run, hB]

/-- Witness for C3 at a concrete payload: frame container is the magic prefix
plus the payload with a decoder that drops it, block container is the payload
itself with the identity decoder. -/
theorem decompress_bytes_lz4_containers_witness :
    ((fun l => List.drop 4 l) (LZ4_FRAME_MAGIC ++ [1, 2, 3]) = [1, 2, 3]) ∧
    ((fun _ => ([1, 2, 3] : List UInt8)) ([9, 9, 9] : List UInt8) = [1, 2, 3]) ∧
    (LZ4_FRAME_MAGIC ++ [1, 2, 3]).take 4 = LZ4_FRAME_MAGIC ∧
    ([9, 9, 9] : List UInt8).take 4 ≠ LZ4_FRAME_MAGIC ∧
    ([9, 9, 9] : List UInt8) ≠ [] ∧
    ([9, 9, 9] : List UInt8) ≠ LZ4_EMPTY_MARKER ∧
    (decompress_bytes true [] (some ("lz4")) = .ok (.direct []) ∧
     decompress_bytes true LZ4_EMPTY_MARKER (some ("lz4")) = .ok (.direct []) ∧
     (decompress_bytes true [7] (some ("lz4")) = .ok (.viaLz4Frame [7]) ↔
       ([7] : List UInt8).take 4 = LZ4_FRAME_MAGIC) ∧
     (decompress_bytes true (LZ4_FRAME_MAGIC ++ [1, 2, 3]) (some ("lz4"))).map
        (ByteDecode.run (fun _ => ([1, 2, 3] : List UInt8)) (fun l => List.drop 4 l)) =
       .ok [1, 2, 3] ∧
     (decompress_bytes true [9, 9, 9] (some ("lz4"))).map
        (ByteDecode.run (fun _ => ([1, 2, 3] : List UInt8)) (fun l => List.drop 4 l)) =
       .ok [1, 2, 3]) := by
  have h5 : ([9, 9, 9] : List UInt8) ≠ [] := by decide
  have h6 : ([9, 9, 9] : List UInt8) ≠ LZ4_EMPTY_MARKER := by decide
  have h4 : ([9, 9, 9] : List UInt8).take 4 ≠ LZ4_FRAME_MAGIC := by decide
  refine ⟨rfl, rfl, by decide, h4, h5, h6, ?_⟩
  exact decompress_bytes_lz4_containers [7] [1, 2, 3] (LZ4_FRAME_MAGIC ++ [1, 2, 3])
    [9, 9, 9] (fun l => List.drop 4 l) (fun _ => ([1, 2, 3] : List UInt8)) rfl rfl
    (by decide) h4 h5 h6

/-- C8: with the optional native dependency absent, the audio decompress and
shape operations and the video open operation fail with the dedicated
dependency-missing error naming the feature, instead of crashing later. -/
theorem optional_dependency_missing :
    (∀ (isFilePath : Bool) (c : String), _decompress_audio false isFilePath c =
      .error (.moduleNotFound ("Miniaudio is not installed. Run pip install hub[audio].")))
    ∧
    (∀ (isFilePath : Bool) (c : String), _read_audio_shape false isFilePath c =
      .error (.moduleNotFound ("Miniaudio is not installed. Run pip install hub[audio].")))
    ∧
    (∀ (hasVideoStream : Bool), _open_video false hasVideoStream =
      .error (.moduleNotFound ("PyAV is not installed. Run pip install hub[video]."))) :=
  ⟨fun _ _ => rfl, fun _ _ => rfl, fun _ => rfl⟩

/-- C4 counterexample: a PNG header with color type 2 (truecolor) and bit
depth 16 yields dtype `"|u1"`, not the native-endian 4-byte integer the claim
assigns to every 16-bit stream — the bit-depth dtype rules only apply to
color type 0. -/
theorem png_16bit_truecolor_dtype_counterexample :
    _read_png_shape_and_dtype
      [0, 0, 0, 0, 0, 0, 0, 0, 0, 0, 0, 0, 0, 0, 0, 0,
       0, 0, 0, 3, 0, 0, 0, 2, 16, 2] = .ok ([2, 3, 3], "|u1") ∧
    ("|u1" : String) ≠ NATIVE_INT32 := by
  exact ⟨by decide, by decide⟩

/-- C4 amended: for any buffer long enough for the IHDR fields, the PNG fast
path reads width and height as big-endian 32-bit fields at offsets 16 and 20
and bit depth and color type at offsets 24 and 25; the dtype rules (1 → bool,
16 → native int32, else uint8) apply only when the color type is 0 — every
non-zero color type yields 8-bit unsigned — and the channel count follows the
color-type mapping (0 and 3: no channel axis, 2: 3 channels, 4: 2 channels if
8-bit else 4, other: 4). -/
theorem png_fast_path_spec (f : List UInt8) (hlen : 26 ≤ f.length) :
    _read_png_shape_and_dtype f = .ok
      (let height := toSigned32 (be32 (f.getD 20 0) (f.getD 21 0) (f.getD 22 0) (f.getD 23 0))
       let width := toSigned32 (be32 (f.getD 16 0) (f.getD 17 0) (f.getD 18 0) (f.getD 19 0))
       let bits := (f.getD 24 0).toNat
       let colors := (f.getD 25 0).toNat
       let typstr := if colors = 0 then
           (if bits = 1 then "|b1" else if bits = 16 then NATIVE_INT32 else "|u1")
         else "|u1"
       let nlayers : Option Nat :=
         if colors = 0 ∨ colors = 3 then none
         else if colors = 2 then some 3
         else if colors = 4 ∧ bits = 8 then some 2
         else some 4
       (match nlayers with
        | none => [height, width]
        | some n => [height, width, (n : Int)], typstr)) := by
  have h24 : ¬ (f.length < 24) := by omega
  have h26 : ¬ (f.length < 26) := by omega
  simp only [_read_png_shape_and_dtype, h24, h26, if_false]
  generalize (f.getD 24 0).toNat = bits
  generalize (f.getD 25 0).toNat = colors
  by_cases hc0 : colors = 0
  · simp [hc0]
  · by_cases hc2 : colors = 2
    · simp [hc0, hc2]
    · by_cases hc3 : colors = 3
      · simp [hc0, hc2, hc3]
      · by_cases hc4 : colors = 4
        · by_cases hb8 : bits = 8
          · simp [hc0, hc2, hc3, hc4, hb8]
          · simp [hc0, hc2, hc3, hc4, hb8]
        · simp [hc0, hc2, hc3, hc4]

/-- Witness for C4 at a concrete 26-byte grayscale header. -/
theorem png_fast_path_spec_witness :
    26 ≤ ([0, 0, 0, 0, 0, 0, 0, 0, 0, 0, 0, 0, 0, 0, 0, 0,
           0, 0, 0, 4, 0, 0, 0, 5, 1, 0] : List UInt8).length ∧
    _read_png_shape_and_dtype
      [0, 0, 0, 0, 0, 0, 0, 0, 0, 0, 0, 0, 0, 0, 0, 0,
       0, 0, 0, 4, 0, 0, 0, 5, 1, 0] = .ok ([5, 4], "|b1") := by
  constructor
  · decide
  · have h := png_fast_path_spec
      [0, 0, 0, 0, 0, 0, 0, 0, 0, 0, 0, 0, 0, 0, 0, 0,
       0, 0, 0, 4, 0, 0, 0, 5, 1, 0] (by decide)
    rw [h]
    decide

/-- C9 counterexample: `to_image` only squeezes `(X, Y, 1)` when `X != 1`, so
a `(1, 5, 1)` array is handed to the image library unsqueezed; and a
zero-sized `(0, 5, 1)` array is never encoded at all. -/
theorem compress_array_hw1_counterexample :
    compress_array [1, 5, 1] (some ("png")) = .ok (.pilEncoded [1, 5, 1]) ∧
    (CompressOutcome.pilEncoded [1, 5, 1]) ≠ .pilEncoded [1, 5] ∧
    compress_array [0, 5, 1] (some ("png")) = .ok .emptyBytes := by
  exact ⟨by decide, by decide, by decide⟩

/-- C9 amended: for a 3-dimensional `(H, W, 1)` array with `H ≠ 1` and no
zero-sized dimension, `compress_array` with a non-animated image identifier
encodes the array squeezed to `(H, W)`. -/
theorem compress_array_squeezes_hw1 (H W : Nat) (c : String)
    (hH1 : H ≠ 1) (hH0 : H ≠ 0) (hW0 : W ≠ 0)
    (hc : c ∈ IMAGE_COMPRESSIONS) (hapng : c ≠ "apng") :
    compress_array [H, W, 1] (some c) = .ok (.pilEncoded [H, W]) := by
  have h0 : ¬ (0 ∈ [H, W, 1]) := by
    intro hmem
    simp only [List.mem_cons, List.not_mem_nil, or_false] at hmem
    rcases hmem with h | h | h
    · omega
    · omega
    · omega
  simp only [compress_array, h0, if_false, mem_hub_of_image c hc, not_true, if_neg,
    get_type_image c hc]
  simp [hapng, to_image_shape, hH1]

/-- Witness for C9 at `H = 2`, `W = 3`, identifier `png`. -/
theorem compress_array_squeezes_hw1_witness :
    (2 : Nat) ≠ 1 ∧ (2 : Nat) ≠ 0 ∧ (3 : Nat) ≠ 0 ∧
    "png" ∈ IMAGE_COMPRESSIONS ∧ ("png" : String) ≠ "apng" ∧
    compress_array [2, 3, 1] (some ("png")) = .ok (.pilEncoded [2, 3]) :=
  ⟨by decide, by decide, by decide, by decide, by decide,
    compress_array_squeezes_hw1 2 3 "png" (by decide) (by decide) (by decide)
      (by decide) (by decide)⟩

/-- C1 counterexample: for the animated image identifier `apng` (a supported
identifier), `decompress_array` on an empty blob with a zero-sized target
shape hands the buffer to the apng decoder instead of returning zeros, and
likewise the audio identifier `mp3` hands it to the audio decoder — the
zero-shape short-circuit is not universal across compression types. -/
theorem decompress_zero_shape_apng_counterexample :
    decompress_array true [] (some [0, 5, 3]) none (some ("apng")) =
      .ok (.apngCall []) ∧
    ¬ (DecompressOutcome.apngCall []).zeroFilledNoCodec [0, 5, 3] ∧
    decompress_array true [] (some [0, 5, 3]) none (some ("mp3")) =
      .ok (.audioCall [] (some ("mp3"))) := by
  refine ⟨by decide, ?_, by decide⟩
  exact fun h => h

/-- C1 amended: an array with a zero-sized dimension compresses to empty
bytes under every identifier (even unsupported ones, since the check runs
first), and decompressing the empty blob with the zero-sized target shape
yields a zero-filled array of that shape without handing the blob to any
codec for the `None` identifier, for every non-`apng` image identifier, and
for the byte identifier when a dtype is supplied — but not for audio, video
or `apng` identifiers. -/
theorem zero_shape_shortcircuit (shape : List Nat) (dtype : Option String)
    (dt : String) (inst : Bool) (h0 : 0 ∈ shape) :
    (∀ compression, compress_array shape compression = .ok .emptyBytes) ∧
    decompress_array inst [] (some shape) dtype none = .ok (.zeros shape dtype) ∧
    (∀ c, c ∈ IMAGE_COMPRESSIONS → c ≠ "apng" →
      decompress_array inst [] (some shape) dtype (some c) =
        .ok (.zeros shape dtype)) ∧
    decompress_array inst [] (some shape) (some dt) (some ("lz4")) =
      .ok (.byteFrombuffer (.direct []) shape dt) ∧
    (DecompressOutcome.byteFrombuffer (.direct []) shape dt).zeroFilledNoCodec shape := by
  refine ⟨?_, ?_, ?_, ?_, ?_⟩
  · intro compression
    simp [compress_array, h0]
  · simp [decompress_array, get_compression_type, h0]
  · intro c hc hapng
    have hgt := get_type_image c hc
    simp [decompress_array, hgt, hapng, h0]
  · simp [decompress_array, get_compression_type, BYTE_COMPRESSIONS, decompress_bytes]
  · exact ⟨rfl, rfl, List.prod_eq_zero h0⟩

/-- Witness for C1 at shape `[0, 5, 3]`. -/
theorem zero_shape_shortcircuit_witness :
    (0 ∈ [0, 5, 3]) ∧
    ((∀ compression, compress_array [0, 5, 3] compression = .ok .emptyBytes) ∧
     decompress_array true [] (some [0, 5, 3]) none none = .ok (.zeros [0, 5, 3] none) ∧
     (∀ c, c ∈ IMAGE_COMPRESSIONS → c ≠ "apng" →
       decompress_array true [] (some [0, 5, 3]) none (some c) =
         .ok (.zeros [0, 5, 3] none)) ∧
     decompress_array true [] (some [0, 5, 3]) (some ("|u1")) (some ("lz4")) =
       .ok (.byteFrombuffer (.direct []) [0, 5, 3] ("|u1")) ∧
     (DecompressOutcome.byteFrombuffer (.direct []) [0, 5, 3] ("|u1")).zeroFilledNoCodec
       [0, 5, 3]) :=
  ⟨by decide, zero_shape_shortcircuit [0, 5, 3] none "|u1" true (by decide)⟩

/-- C5 counterexample: a minimal JPEG stream (SOI, SOF0 with height 2, width
3, 3 components, then SOS) with no end-of-image marker.  The metadata fast
path (`_read_jpeg_shape_from_buffer`, used by `read_meta_from_compressed_file`)
succeeds and returns the shape, only the verification path
(`_verify_jpeg_buffer`) rejects the stream. -/
theorem jpeg_missing_eoi_counterexample :
    _read_jpeg_shape_from_buffer
      [0xff, 0xd8, 0xff, 0xc0, 0x00, 0x11, 0x08, 0x00, 0x02, 0x00, 0x03, 0x03,
       0, 0, 0, 0, 0, 0, 0, 0, 0, 0xff, 0xda] = .ok [2, 3, 3] ∧
    read_meta_jpeg_from_buffer
      [0xff, 0xd8, 0xff, 0xc0, 0x00, 0x11, 0x08, 0x00, 0x02, 0x00, 0x03, 0x03,
       0, 0, 0, 0, 0, 0, 0, 0, 0, 0xff, 0xda] = .ok ("jpeg", [2, 3, 3], "|u1") ∧
    containsEOI
      [0xff, 0xd8, 0xff, 0xc0, 0x00, 0x11, 0x08, 0x00, 0x02, 0x00, 0x03, 0x03,
       0, 0, 0, 0, 0, 0, 0, 0, 0, 0xff, 0xda] = false ∧
    _verify_jpeg_buffer
      [0xff, 0xd8, 0xff, 0xc0, 0x00, 0x11, 0x08, 0x00, 0x02, 0x00, 0x03, 0x03,
       0, 0, 0, 0, 0, 0, 0, 0, 0, 0xff, 0xda] =
      .error (.pyException ("AssertionError")) := by
  exact ⟨by decide, by decide, by decide, by decide⟩

/-- C5 amended: the full-frame verification path rejects every stream lacking
an end-of-image marker (while the shape-reading fast path performs no such
check, as the counterexample shows). -/
theorem verify_jpeg_requires_eoi (buf : List UInt8) (s : List Nat)
    (hEOI : containsEOI buf = false) :
    _verify_jpeg_buffer buf ≠ .ok s := by
  intro h
  simp only [_verify_jpeg_buffer, hEOI] at h
  repeat' split at h
  all_goals simp_all

/-- Witness for C5 amended at the empty buffer. -/
theorem verify_jpeg_requires_eoi_witness :
    containsEOI [] = false ∧ _verify_jpeg_buffer [] ≠ .ok [2, 3] :=
  ⟨by decide, verify_jpeg_requires_eoi [] [2, 3] (by decide)⟩

/-! Video decode lemmas -/

theorem dvFrameLoop_length {F : Type} (pts : Option Int) (stepTime : Int) (n : Nat) :
    ∀ (fs : List F) (i : Nat) (t : Int) (v : List F) (r : Nat × Int × List F),
      dvFrameLoop pts stepTime n fs i t v = .ok r → r.2.2.length = v.length := by
  intro fs
  induction fs with
  | nil =>
    intro i t v r h
    injection h with h2
    rw [← h2]
  | cons f fs ih =>
    intro i t v r h
    simp only [dvFrameLoop] at h
    split at h
    · split at h
      · have hr := ih (i + 1) (t + stepTime) (v.set i f) r h
        simpa [List.length_set] using hr
      · exact Except.noConfusion h
    · exact ih i t v r h

theorem dvPacketLoop_length {F : Type} (stepTime : Int) (n : Nat) :
    ∀ (ps : List (AVPacket F)) (i : Nat) (t : Int) (v : List F) (r : Nat × List F),
      dvPacketLoop stepTime n ps i t v = .ok r → r.2.length = v.length := by
  intro ps
  induction ps with
  | nil =>
    intro i t v r h
    injection h with h2
    rw [← h2]
  | cons p ps ih =>
    intro i t v r h
    simp only [dvPacketLoop] at h
    split at h
    · exact Except.noConfusion h
    · rename_i i' t' v' heq
      have hlen := dvFrameLoop_length p.pts stepTime n p.frames i t v (i', t', v') heq
      split at h
      · injection h with h2
        rw [← h2]
        simpa using hlen
      · have hr := ih i' t' v' r h
        rw [hr]
        simpa using hlen

theorem dvPacketLoop_append {F : Type} (stepTime : Int) (n : Nat) :
    ∀ (ps extra : List (AVPacket F)) (i : Nat) (t : Int) (v v' : List F),
      ps ≠ [] → dvPacketLoop stepTime n ps i t v = .ok (n, v') →
      dvPacketLoop stepTime n (ps ++ extra) i t v = .ok (n, v') := by
  intro ps
  induction ps with
  | nil =>
    intro extra i t v v' hne
    exact absurd rfl hne
  | cons p ps ih =>
    intro extra i t v v' _ h
    simp only [dvPacketLoop] at h
    simp only [List.cons_append, dvPacketLoop]
    cases hf : dvFrameLoop p.pts stepTime n p.frames i t v with
    | error e =>
      rw [hf] at h
      exact Except.noConfusion h
    | ok tr =>
      obtain ⟨i', t', v''⟩ := tr
      rw [hf] at h
      dsimp only at h ⊢
      by_cases hi : i' = n
      · rw [if_pos hi] at h ⊢
        exact h
      · rw [if_neg hi] at h ⊢
        have hps : ps ≠ [] := by
          intro he
          subst he
          simp only [dvPacketLoop] at h
          injection h with h2
          exact hi (congrArg Prod.fst h2)
        exact ih extra i' t' v'' v' hps h

theorem decompress_video_ok_length {F : Type} (z : F) (s : VideoStream F)
    (st sp se : Option Nat) (r : Bool) (v : List F)
    (h : _decompress_video z s st sp se r = .ok v) :
    v.length = (ceilDivInt (((sp.getD s.metaNframes : Nat) : Int) -
      ((st.getD 0 : Nat) : Int)) ((se.getD 1 : Nat) : Int)).toNat := by
  simp only [_decompress_video] at h
  split at h
  · exact Except.noConfusion h
  · split at h
    · exact Except.noConfusion h
    · split at h
      · exact Except.noConfusion h
      · rename_i i' video heq
        have hlen := dvPacketLoop_length _ _ _ _ _ _ (i', video) heq
        injection h with h2
        rw [← h2]
        cases r with
        | false => simpa using hlen
        | true => simpa using hlen

theorem decompress_video_reverse {F : Type} (z : F) (s : VideoStream F)
    (st sp se : Option Nat) :
    _decompress_video z s st sp se true =
      (_decompress_video z s st sp se false).map List.reverse := by
  simp only [_decompress_video]
  split
  · rfl
  · split
    · rfl
    · split
      · rfl
      · simp [Except.map]

/-- C6 counterexample: a frame window with `start = 1 > stop = 0` makes
`_decompress_video` raise (numpy rejects the negative frame count) instead of
returning an array of `ceil((stop - start) / step)` frames. -/
theorem video_negative_window_counterexample :
    _decompress_video () ⟨1, 1, 5, 1, 1, 1, 1, 1, []⟩ (some 1) (some 0) (some 1) false =
      .error (.valueError ("negative dimensions are not allowed")) := by
  decide

/-- C6 amended: for a frame window with `start ≤ stop` and `step ≥ 1`, when
`_decompress_video` returns it returns exactly
`ceil((stop - start) / step)` frames; the `reverse` flag yields exactly the
non-reversed result flipped along the frame axis; and once the requested
count is filled after some packet, decoding stops — packets demuxed later
cannot change the result. -/
theorem video_decode_range_spec {F : Type} (z : F) (s : VideoStream F)
    (start stop step : Nat) (v : List F)
    (packets extra : List (AVPacket F)) (stepTime : Int) (n i : Nat) (t : Int)
    (v0 v' : List F)
    (hss : start ≤ stop) (hstep : 1 ≤ step) :
    (_decompress_video z s (some start) (some stop) (some step) false = .ok v →
      v.length = (ceilDivInt ((stop : Int) - (start : Int)) (step : Int)).toNat) ∧
    (_decompress_video z s (some start) (some stop) (some step) true =
      (_decompress_video z s (some start) (some stop) (some step) false).map
        List.reverse) ∧
    (packets ≠ [] → dvPacketLoop stepTime n packets i t v0 = .ok (n, v') →
      dvPacketLoop stepTime n (packets ++ extra) i t v0 = .ok (n, v')) := by
  refine ⟨?_, decompress_video_reverse z s (some start) (some stop) (some step),
    dvPacketLoop_append stepTime n packets extra i t v0 v'⟩
  intro h
  simpa using decompress_video_ok_length z s (some start) (some stop) (some step) false v h

/-- Witness for C6 at the window `start = 10, stop = 20, step = 2` of the
claim, on a stream of nine packets with timestamps 10 through 18: exactly
`ceil(10 / 2) = 5` frames come back, and the reverse flag flips them. -/
theorem video_decode_range_spec_witness :
    (10 : Nat) ≤ 20 ∧ (1 : Nat) ≤ 2 ∧
    _decompress_video 0 ⟨2, 2, 30, 1, 1, 1, 1, 12,
        [⟨some 10, [10]⟩, ⟨some 11, [11]⟩, ⟨some 12, [12]⟩, ⟨some 13, [13]⟩,
         ⟨some 14, [14]⟩, ⟨some 15, [15]⟩, ⟨some 16, [16]⟩, ⟨some 17, [17]⟩,
         ⟨some 18, [18]⟩]⟩ (some 10) (some 20) (some 2) false =
      .ok [10, 12, 14, 16, 18] ∧
    ([10, 12, 14, 16, 18] : List Nat).length = 5 ∧
    _decompress_video 0 ⟨2, 2, 30, 1, 1, 1, 1, 12,
        [⟨some 10, [10]⟩, ⟨some 11, [11]⟩, ⟨some 12, [12]⟩, ⟨some 13, [13]⟩,
         ⟨some 14, [14]⟩, ⟨some 15, [15]⟩, ⟨some 16, [16]⟩, ⟨some 17, [17]⟩,
         ⟨some 18, [18]⟩]⟩ (some 10) (some 20) (some 2) true =
      (_decompress_video 0 ⟨2, 2, 30, 1, 1, 1, 1, 12,
        [⟨some 10, [10]⟩, ⟨some 11, [11]⟩, ⟨some 12, [12]⟩, ⟨some 13, [13]⟩,
         ⟨some 14, [14]⟩, ⟨some 15, [15]⟩, ⟨some 16, [16]⟩, ⟨some 17, [17]⟩,
         ⟨some 18, [18]⟩]⟩ (some 10) (some 20) (some 2) false).map List.reverse :=
  ⟨by decide, by decide, by decide, by decide,
    (video_decode_range_spec 0 ⟨2, 2, 30, 1, 1, 1, 1, 12,
        [⟨some 10, [10]⟩, ⟨some 11, [11]⟩, ⟨some 12, [12]⟩, ⟨some 13, [13]⟩,
         ⟨some 14, [14]⟩, ⟨some 15, [15]⟩, ⟨some 16, [16]⟩, ⟨some 17, [17]⟩,
         ⟨some 18, [18]⟩]⟩ 10 20 2 [] [] [] 0 0 0 0 [] []
      (by decide) (by decide)).2.1⟩

/-- C7 counterexample: two samples that agree on dtype but disagree on a
trailing dimension make `compress_multiple` with an image identifier raise
`ValueError` (from `_get_bounding_shape`), not `SampleCompressionError`; and
with a byte identifier the trailing mismatch is not checked at all — the
samples are concatenated raw and the call succeeds. -/
theorem compress_multiple_channels_counterexample :
    compress_multiple (α := UInt8)
      ⟨⟨0, 1, fun a => [a], fun l => l.headD 0⟩, fun _ => [],
        fun _ => ⟨"", 0, 0, [], fun _ _ _ => 0⟩, fun _ => [],
        fun b => b, fun b => b, fun b => b, true⟩
      [⟨"u8", 1, 1, [2], fun _ _ _ => 0⟩, ⟨"u8", 1, 1, [3], fun _ _ _ => 0⟩]
      (some ("png")) =
      .error (.valueError
        ("The data cannot be compressed as the number of channels does not match.")) ∧
    compress_multiple (α := UInt8)
      ⟨⟨0, 1, fun a => [a], fun l => l.headD 0⟩, fun _ => [],
        fun _ => ⟨"", 0, 0, [], fun _ _ _ => 0⟩, fun _ => [],
        fun b => b, fun b => b, fun b => b, true⟩
      [⟨"u8", 1, 1, [2], fun _ _ _ => 0⟩, ⟨"u8", 1, 1, [3], fun _ _ _ => 0⟩]
      (some ("lz4")) = .ok [0, 0, 0, 0, 0] := by
  exact ⟨by decide, by decide⟩

/-- C7 amended: `compress_multiple` fails with `SampleCompressionError` when
two samples disagree on dtype (any identifier; the error carries the first
offending sample's shape); on the tiling path (identifier `None` or a
non-`apng` image identifier) a disagreement in the trailing dimensions beyond
the first two axes fails with `ValueError`, not `SampleCompressionError`. -/
theorem compress_multiple_mismatch_errors {α : Type} (K : Codecs α) (a0 : Sample α)
    (rest : List (Sample α)) (compression : Option String) (arr : Sample α) :
    ((a0 :: rest).find? (fun x => x.dtype != a0.dtype) = some arr →
      compress_multiple K (a0 :: rest) compression =
        .error (.sampleCompression arr.shape compression
          ("All arrays expected to have same dtype."))) ∧
    ((∀ x ∈ a0 :: rest, x.dtype = a0.dtype) →
     (¬ ∀ x ∈ a0 :: rest, x.tr = a0.tr) →
     (compression = none ∨
       ∃ c, compression = some c ∧ c ∈ IMAGE_COMPRESSIONS ∧ c ≠ "apng") →
      compress_multiple K (a0 :: rest) compression =
        .error (.valueError
          ("The data cannot be compressed as the number of channels does not match."))) := by
  have hdrop : ∀ s : Sample α, (Sample.shape s).drop 2 = s.tr := fun _ => rfl
  constructor
  · intro hfind
    simp only [compress_multiple]
    rw [hfind]
  · intro hdt hntr hcomp
    have hfind : (a0 :: rest).find? (fun x => x.dtype != a0.dtype) = none := by
      rw [List.find?_eq_none]
      intro x hx
      simp [hdt x hx]
    push_neg at hntr
    obtain ⟨x, hxmem, hxtr⟩ := hntr
    have hbound : _get_bounding_shape ((a0 :: rest).map Sample.shape) =
        .error (.valueError
          ("The data cannot be compressed as the number of channels does not match.")) := by
      rcases List.mem_cons.mp hxmem with hx0 | hxr
      · subst hx0
        exact absurd rfl hxtr
      · simp only [List.map_cons, _get_bounding_shape]
        have hc : ¬ ((Sample.shape a0 :: rest.map Sample.shape).all
            (fun s => decide (s.drop 2 = (Sample.shape a0).drop 2)) = true) := by
          simp only [List.all_eq_true, decide_eq_true_eq]
          push_neg
          exact ⟨x.shape, List.mem_cons_of_mem _ (List.mem_map_of_mem _ hxr), by
            rw [hdrop, hdrop]
            exact hxtr⟩
        rw [if_neg hc]
    rw [List.map_cons] at hbound
    rcases hcomp with hnone | ⟨c, hc, hcim, hcapng⟩
    · subst hnone
      simp [compress_multiple, hfind, get_compression_type, hbound]
    · subst hc
      simp [compress_multiple, hfind, get_type_image c hcim, hbound, hcapng]

/-- Witness for C7: a concrete dtype mismatch raising
`SampleCompressionError`, and a concrete trailing-dimension mismatch raising
`ValueError`. -/
theorem compress_multiple_mismatch_errors_witness :
    (([⟨"u8", 1, 1, [], fun _ _ _ => 0⟩, ⟨"f4", 1, 1, [], fun _ _ _ => 0⟩] :
        List (Sample UInt8)).find? (fun x => x.dtype != "u8") =
      some ⟨"f4", 1, 1, [], fun _ _ _ => 0⟩) ∧
    compress_multiple (α := UInt8)
      ⟨⟨0, 1, fun a => [a], fun l => l.headD 0⟩, fun _ => [],
        fun _ => ⟨"", 0, 0, [], fun _ _ _ => 0⟩, fun _ => [],
        fun b => b, fun b => b, fun b => b, true⟩
      [⟨"u8", 1, 1, [], fun _ _ _ => 0⟩, ⟨"f4", 1, 1, [], fun _ _ _ => 0⟩]
      (some ("png")) =
      .error (.sampleCompression [1, 1] (some ("png"))
        ("All arrays expected to have same dtype.")) ∧
    compress_multiple (α := UInt8)
      ⟨⟨0, 1, fun a => [a], fun l => l.headD 0⟩, fun _ => [],
        fun _ => ⟨"", 0, 0, [], fun _ _ _ => 0⟩, fun _ => [],
        fun b => b, fun b => b, fun b => b, true⟩
      [⟨"u8", 2, 2, [4], fun _ _ _ => 0⟩, ⟨"u8", 2, 2, [5], fun _ _ _ => 0⟩]
      (some ("bmp")) =
      .error (.valueError
        ("The data cannot be compressed as the number of channels does not match.")) := by
  refine ⟨rfl, ?_, ?_⟩
  · exact (compress_multiple_mismatch_errors
      ⟨⟨0, 1, fun a => [a], fun l => l.headD 0⟩, fun _ => [],
        fun _ => ⟨"", 0, 0, [], fun _ _ _ => 0⟩, fun _ => [],
        fun b => b, fun b => b, fun b => b, true⟩
      ⟨"u8", 1, 1, [], fun _ _ _ => 0⟩ [⟨"f4", 1, 1, [], fun _ _ _ => 0⟩]
      (some ("png")) ⟨"f4", 1, 1, [], fun _ _ _ => 0⟩).1 rfl
  · exact (compress_multiple_mismatch_errors
      ⟨⟨0, 1, fun a => [a], fun l => l.headD 0⟩, fun _ => [],
        fun _ => ⟨"", 0, 0, [], fun _ _ _ => 0⟩, fun _ => [],
        fun b => b, fun b => b, fun b => b, true⟩
      ⟨"u8", 2, 2, [4], fun _ _ _ => 0⟩ [⟨"u8", 2, 2, [5], fun _ _ _ => 0⟩]
      (some ("bmp")) ⟨"u8", 2, 2, [4], fun _ _ _ => 0⟩).2
      (by
        intro y hy
        rcases List.mem_cons.mp hy with h | h
        · rw [h]
        · rw [List.mem_singleton.mp h])
      (by
        intro hall
        have h5 := hall ⟨"u8", 2, 2, [5], fun _ _ _ => 0⟩ (by
          exact List.mem_cons_of_mem _ (List.mem_singleton.mpr rfl))
        exact absurd h5 (by decide))
      (Or.inr ⟨"bmp", rfl, by decide, by decide⟩)

/-! Generic list lemmas for the tiler proofs -/

theorem length_flatMap_const {γ β : Type} (l : List γ) (f : γ → List β) (m : Nat)
    (h : ∀ a ∈ l, (f a).length = m) : (l.flatMap f).length = l.length * m := by
  induction l with
  | nil => simp
  | cons a t ih =>
    simp only [List.flatMap_cons, List.length_append, List.length_cons]
    rw [h a (List.mem_cons_self a t), ih (fun x hx => h x (List.mem_cons_of_mem a hx))]
    ring

theorem length_flatten_const {β : Type} (l : List (List β)) (m : Nat)
    (h : ∀ b ∈ l, b.length = m) : l.flatten.length = l.length * m := by
  induction l with
  | nil => simp
  | cons b t ih =>
    simp only [List.flatten_cons, List.length_append, List.length_cons]
    rw [h b (List.mem_cons_self b t), ih (fun x hx => h x (List.mem_cons_of_mem b hx))]
    ring

theorem flatten_drop_const {β : Type} (l : List (List β)) (m : Nat)
    (h : ∀ b ∈ l, b.length = m) :
    ∀ i : Nat, l.flatten.drop (i * m) = (l.drop i).flatten := by
  induction l with
  | nil => intro i; simp
  | cons b t ih =>
    intro i
    cases i with
    | zero => simp
    | succ i =>
      have hb := h b (List.mem_cons_self b t)
      rw [List.flatten_cons, show (i + 1) * m = b.length + i * m by rw [hb]; ring,
        ← List.drop_drop]
      rw [List.drop_left]
      rw [ih (fun x hx => h x (List.mem_cons_of_mem b hx)) i]
      rfl

theorem flatten_slice_const {β : Type} (l : List (List β)) (m : Nat)
    (h : ∀ b ∈ l, b.length = m) (i : Nat) (hi : i < l.length) :
    (l.flatten.drop (i * m)).take m = l.getD i [] := by
  rw [flatten_drop_const l m h i]
  cases hld : l.drop i with
  | nil =>
    have : l.length ≤ i := by
      have := congrArg List.length hld
      simp only [List.length_drop, List.length_nil] at this
      omega
    omega
  | cons b t =>
    have hb : b ∈ l := by
      have : b ∈ l.drop i := by rw [hld]; exact List.mem_cons_self b t
      exact List.mem_of_mem_drop this
    rw [List.flatten_cons, ← h b hb, List.take_left]
    have hget : l.getD i [] = b := by
      have h1 : l.getD i [] = (l.drop i).getD 0 [] := by
        rw [List.getD_eq_getElem?_getD, List.getD_eq_getElem?_getD,
          List.getElem?_drop, Nat.add_zero]
      rw [h1, hld]
      rfl
    rw [hget]

theorem flatMap_uniform_getElem? {γ β : Type} :
    ∀ (l : List γ) (f : γ → List β) (m : Nat), (∀ a ∈ l, (f a).length = m) →
    ∀ (i j : Nat) (hi : i < l.length), j < m →
      (l.flatMap f)[i * m + j]? = (f (l.get ⟨i, hi⟩))[j]? := by
  intro l
  induction l with
  | nil => intro f m _ i j hi; simp at hi
  | cons a t ih =>
    intro f m h i j hi hj
    cases i with
    | zero =>
      simp only [List.flatMap_cons, Nat.zero_mul, Nat.zero_add, List.get]
      exact List.getElem?_append_left (by rw [h a (List.mem_cons_self a t)]; exact hj)
    | succ i =>
      have ha := h a (List.mem_cons_self a t)
      have hlen : (f a).length ≤ (i + 1) * m + j := by
        rw [ha]
        calc m ≤ (i + 1) * m := Nat.le_mul_of_pos_left m (by omega)
          _ ≤ (i + 1) * m + j := Nat.le_add_right _ _
      simp only [List.flatMap_cons]
      rw [List.getElem?_append_right hlen]
      have harith : (i + 1) * m + j - (f a).length = i * m + j := by
        rw [ha]
        have : (i + 1) * m = i * m + m := by ring
        omega
      rw [harith]
      exact ih f m (fun x hx => h x (List.mem_cons_of_mem a hx)) i j
        (by simpa using hi) hj

/-! Sample indexing lemmas -/

theorem cells_length {α : Type} (s : Sample α) :
    s.cells.length = s.h * (s.w * s.channels) := by
  unfold Sample.cells
  rw [length_flatMap_const _ _ (s.w * s.channels) ?_, List.length_range]
  intro y _
  rw [length_flatMap_const _ _ s.channels ?_, List.length_range]
  intro x _
  rw [List.length_map, List.length_range]

theorem shape_prod {α : Type} (s : Sample α) :
    (Sample.shape s).prod = s.h * (s.w * s.channels) := by
  simp [Sample.shape, Sample.channels, List.prod_cons]

theorem tobytes_length {α : Type} (cd : DtypeCodec α)
    (henc : ∀ a, (cd.enc a).length = cd.itemsize) (s : Sample α) :
    (s.tobytes cd).length = (Sample.shape s).prod * cd.itemsize := by
  unfold Sample.tobytes
  rw [length_flatten_const _ cd.itemsize ?_, List.length_map, cells_length, shape_prod]
  intro b hb
  obtain ⟨a, _, rfl⟩ := List.mem_map.mp hb
  exact henc a

theorem cells_getElem? {α : Type} (s : Sample α) (y x k : Nat)
    (hy : y < s.h) (hx : x < s.w) (hk : k < s.channels) :
    s.cells[(y * s.w + x) * s.channels + k]? = some (s.data y x k) := by
  unfold Sample.cells
  have harith : (y * s.w + x) * s.channels + k
      = y * (s.w * s.channels) + (x * s.channels + k) := by ring
  rw [harith]
  have hinner : ∀ a ∈ List.range s.h,
      ((List.range s.w).flatMap
        (fun x => (List.range s.channels).map (fun k => s.data a x k))).length
        = s.w * s.channels := by
    intro a _
    rw [length_flatMap_const _ _ s.channels ?_, List.length_range]
    intro x _
    rw [List.length_map, List.length_range]
  have hjb : x * s.channels + k < s.w * s.channels := by
    calc x * s.channels + k < x * s.channels + s.channels := by omega
      _ = (x + 1) * s.channels := by ring
      _ ≤ s.w * s.channels := Nat.mul_le_mul_right _ (by omega)
  rw [flatMap_uniform_getElem? (List.range s.h) _ (s.w * s.channels) hinner y
    (x * s.channels + k) (by simpa using hy) hjb]
  rw [List.get_range]
  rw [flatMap_uniform_getElem? (List.range s.w) _ s.channels ?_ x k
    (by simpa using hx) hk]
  · rw [List.get_range, List.getElem?_map, List.getElem?_range hk]
    rfl
  · intro a _
    rw [List.length_map, List.length_range]

theorem tobytes_slice {α : Type} (cd : DtypeCodec α)
    (henc : ∀ a, (cd.enc a).length = cd.itemsize) (s : Sample α) (y x k : Nat)
    (hy : y < s.h) (hx : x < s.w) (hk : k < s.channels) :
    ((s.tobytes cd).drop (((y * s.w + x) * s.channels + k) * cd.itemsize)).take
        cd.itemsize = cd.enc (s.data y x k) := by
  unfold Sample.tobytes
  have hmem : ∀ b ∈ s.cells.map cd.enc, b.length = cd.itemsize := by
    intro b hb
    obtain ⟨a, _, rfl⟩ := List.mem_map.mp hb
    exact henc a
  have hn : (y * s.w + x) * s.channels + k < (s.cells.map cd.enc).length := by
    rw [List.length_map, cells_length]
    have h1 : y * s.w + x < s.h * s.w := by
      calc y * s.w + x < y * s.w + s.w := by omega
        _ = (y + 1) * s.w := by ring
        _ ≤ s.h * s.w := Nat.mul_le_mul_right _ (by omega)
    calc (y * s.w + x) * s.channels + k
        < (y * s.w + x) * s.channels + s.channels := by omega
      _ = (y * s.w + x + 1) * s.channels := by ring
      _ ≤ (s.h * s.w) * s.channels := Nat.mul_le_mul_right _ (by omega)
      _ = s.h * (s.w * s.channels) := by ring
  rw [flatten_slice_const (s.cells.map cd.enc) cd.itemsize hmem _ hn]
  rw [List.getD_eq_getElem?_getD, List.getElem?_map, cells_getElem? s y x k hy hx hk]
  rfl

theorem Sample.PEq_refl {α : Type} (s : Sample α) : s.PEq s :=
  ⟨rfl, rfl, rfl, rfl, fun _ _ _ _ _ _ => rfl⟩

/-- `np.frombuffer(a.tobytes(), dtype).reshape(a.shape)` is element-wise the
original array. -/
theorem frombuffer_tobytes_PEq {α : Type} (cd : DtypeCodec α)
    (henc : ∀ a, (cd.enc a).length = cd.itemsize)
    (hdec : ∀ a, cd.dec (cd.enc a) = a) (s : Sample α) (d : String)
    (hd : s.dtype = d) :
    (frombuffer_reshape cd (s.tobytes cd) (Sample.shape s) d).PEq s := by
  refine ⟨hd.symm, rfl, rfl, rfl, ?_⟩
  intro y hy x hx k hk
  show cd.dec (((s.tobytes cd).drop
      (((y * ((Sample.shape s).getD 1 0) + x) * ((Sample.shape s).drop 2).prod + k)
        * cd.itemsize)).take cd.itemsize) = s.data y x k
  have h1 : (Sample.shape s).getD 1 0 = s.w := rfl
  have h2 : ((Sample.shape s).drop 2).prod = s.channels := rfl
  rw [h1, h2, tobytes_slice cd henc s y x k hy hx hk, hdec]

/-- The byte-path slicing loop of `decompress_multiple` recovers every sample
from the concatenation of their `tobytes` streams. -/
theorem byte_slices_concat {α : Type} (cd : DtypeCodec α)
    (henc : ∀ a, (cd.enc a).length = cd.itemsize)
    (hdec : ∀ a, cd.dec (cd.enc a) = a) (d : String) :
    ∀ as : List (Sample α), (∀ a ∈ as, a.dtype = d) →
      List.Forall₂ Sample.PEq
        (byte_slice_arrays cd d ((as.map (fun a => a.tobytes cd)).flatten)
          (as.map Sample.shape)) as := by
  intro as
  induction as with
  | nil =>
    intro _
    exact List.Forall₂.nil
  | cons a t ih =>
    intro hdt
    simp only [List.map_cons, List.flatten_cons, byte_slice_arrays]
    have hlen : (Sample.shape a).prod * cd.itemsize = (a.tobytes cd).length :=
      (tobytes_length cd henc a).symm
    rw [hlen, List.take_left, List.drop_left]
    exact List.Forall₂.cons
      (frombuffer_tobytes_PEq cd henc hdec a d (hdt a (List.mem_cons_self a t)))
      (ih (fun x hx => hdt x (List.mem_cons_of_mem a hx)))

/-! Canvas placement lemmas -/

theorem place_all_dtype {α : Type} :
    ∀ (as : List (Sample α)) (c : Sample α) (x0 : Nat),
      (place_all c as x0).dtype = c.dtype := by
  intro as
  induction as with
  | nil => intro c x0; rfl
  | cons a t ih => intro c x0; exact ih (place_sample c a x0) (x0 + a.w)

theorem place_all_h {α : Type} :
    ∀ (as : List (Sample α)) (c : Sample α) (x0 : Nat), (place_all c as x0).h = c.h := by
  intro as
  induction as with
  | nil => intro c x0; rfl
  | cons a t ih => intro c x0; exact ih (place_sample c a x0) (x0 + a.w)

theorem place_all_w {α : Type} :
    ∀ (as : List (Sample α)) (c : Sample α) (x0 : Nat), (place_all c as x0).w = c.w := by
  intro as
  induction as with
  | nil => intro c x0; rfl
  | cons a t ih => intro c x0; exact ih (place_sample c a x0) (x0 + a.w)

theorem place_all_tr {α : Type} :
    ∀ (as : List (Sample α)) (c : Sample α) (x0 : Nat), (place_all c as x0).tr = c.tr := by
  intro as
  induction as with
  | nil => intro c x0; rfl
  | cons a t ih => intro c x0; exact ih (place_sample c a x0) (x0 + a.w)

/-- Positions left of the running offset are never touched by the placement
loop. -/
theorem place_all_lt {α : Type} :
    ∀ (as : List (Sample α)) (c : Sample α) (x1 y xx k : Nat), xx < x1 →
      (place_all c as x1).data y xx k = c.data y xx k := by
  intro as
  induction as with
  | nil => intro c x1 y xx k _; rfl
  | cons a t ih =>
    intro c x1 y xx k hxx
    show (place_all (place_sample c a x1) t (x1 + a.w)).data y xx k = c.data y xx k
    rw [ih (place_sample c a x1) (x1 + a.w) y xx k (by omega)]
    simp only [place_sample]
    rw [if_neg]
    intro hcond
    omega

/-- Inside sample `i`'s horizontal slot the placed canvas holds sample `i`'s
elements. -/
theorem place_all_region {α : Type} :
    ∀ (as : List (Sample α)) (i : Nat) (hi : i < as.length) (c : Sample α)
      (x0 y xx k : Nat),
      y < (as.get ⟨i, hi⟩).h → xx < (as.get ⟨i, hi⟩).w →
      (place_all c as x0).data y
          (x0 + ((as.take i).map (fun a => a.w)).sum + xx) k
        = (as.get ⟨i, hi⟩).data y xx k := by
  intro as
  induction as with
  | nil => intro i hi; simp at hi
  | cons a t ih =>
    intro i hi c x0 y xx k hy hx
    cases i with
    | zero =>
      simp only [List.take_zero, List.map_nil, List.sum_nil, Nat.add_zero, List.get]
      show (place_all (place_sample c a x0) t (x0 + a.w)).data y (x0 + xx) k
        = a.data y xx k
      rw [place_all_lt t (place_sample c a x0) (x0 + a.w) y (x0 + xx) k
        (by simp only [List.get] at hx; omega)]
      simp only [place_sample]
      rw [if_pos ⟨by simpa using hy, by omega, by simp only [List.get] at hx; omega⟩]
      congr 1
      omega
    | succ i =>
      have harith : x0 + (((a :: t).take (i + 1)).map (fun a => a.w)).sum + xx
          = (x0 + a.w) + ((t.take i).map (fun a => a.w)).sum + xx := by
        rw [List.take_succ_cons, List.map_cons, List.sum_cons]
        omega
      rw [harith]
      show (place_all (place_sample c a x0) t (x0 + a.w)).data y _ k = _
      exact ih i (by simpa using hi) (place_sample c a x0) (x0 + a.w) y xx k hy hx

theorem mem_le_foldr_max : ∀ (l : List Nat) (x : Nat), x ∈ l → x ≤ l.foldr max 0 := by
  intro l
  induction l with
  | nil => intro x hx; simp at hx
  | cons a t ih =>
    intro x hx
    rcases List.mem_cons.mp hx with h | h
    · subst h
      exact Nat.le_max_left x (t.foldr max 0)
    · exact Nat.le_trans (ih x h) (Nat.le_max_right a (t.foldr max 0))

theorem take_get_sum_le : ∀ (l : List Nat) (i : Nat) (hi : i < l.length),
    (l.take i).sum + l.get ⟨i, hi⟩ ≤ l.sum := by
  intro l
  induction l with
  | nil => intro i hi; simp at hi
  | cons a t ih =>
    intro i hi
    cases i with
    | zero => simp
    | succ i =>
      have := ih i (by simpa using hi)
      simp only [List.take_succ_cons, List.sum_cons, List.get]
      omega

/-- The canvas-path slicing loop of `decompress_multiple` recovers every
sample from any array that agrees with the placed canvas on the in-range
region. -/
theorem canvas_slices_correct {α : Type} (cv : Sample α) :
    ∀ (as : List (Sample α)) (x0 : Nat),
      (∀ a ∈ as, a.dtype = cv.dtype) →
      (∀ a ∈ as, a.tr = cv.tr) →
      (∀ a ∈ as, a.h ≤ cv.h) →
      x0 + ((as.map (fun a => a.w)).sum) ≤ cv.w →
      (∀ (i : Nat) (hi : i < as.length) (y xx k : Nat),
        y < (as.get ⟨i, hi⟩).h → xx < (as.get ⟨i, hi⟩).w →
        k < (as.get ⟨i, hi⟩).channels →
        cv.data y (x0 + ((as.take i).map (fun a => a.w)).sum + xx) k =
          (as.get ⟨i, hi⟩).data y xx k) →
      List.Forall₂ Sample.PEq (canvas_slice_arrays cv (as.map Sample.shape) x0) as := by
  intro as
  induction as with
  | nil =>
    intro x0 _ _ _ _ _
    exact List.Forall₂.nil
  | cons a t ih =>
    intro x0 hdt htr hh hw hdata
    have hmem0 : a ∈ a :: t := List.mem_cons_self a t
    have hwc : x0 + (a.w + (t.map (fun a => a.w)).sum) ≤ cv.w := by
      simpa [List.map_cons, List.sum_cons] using hw
    have hx0 : x0 ≤ cv.w := by omega
    have hx0w : x0 + a.w ≤ cv.w := by omega
    simp only [List.map_cons, canvas_slice_arrays]
    have hga : (Sample.shape a).getD 0 0 = a.h := rfl
    have hgb : (Sample.shape a).getD 1 0 = a.w := rfl
    rw [hga, hgb]
    have hsl : cv.sliceHW a.h x0 (x0 + a.w) =
        { dtype := cv.dtype, h := a.h, w := a.w, tr := cv.tr,
          data := fun y xx k => cv.data y (x0 + xx) k } := by
      simp only [Sample.sliceHW]
      congr 1
      · exact Nat.min_eq_left (hh a hmem0)
      · rw [Nat.min_eq_left hx0w, Nat.min_eq_left hx0]
        omega
      · funext y xx k
        rw [Nat.min_eq_left hx0]
    rw [hsl]
    refine List.Forall₂.cons ⟨(hdt a hmem0).symm, rfl, rfl, (htr a hmem0).symm, ?_⟩ ?_
    · intro y hy xx hxx k hk
      have hk' : k < a.channels := by
        have : Sample.channels a = cv.tr.prod := by
          rw [Sample.channels, htr a hmem0]
        rw [this]
        exact hk
      have h0 := hdata 0 (by simp) y xx k hy hxx hk'
      simpa using h0
    · refine ih (x0 + a.w) (fun b hb => hdt b (List.mem_cons_of_mem a hb))
        (fun b hb => htr b (List.mem_cons_of_mem a hb))
        (fun b hb => hh b (List.mem_cons_of_mem a hb)) (by omega) ?_
      intro i hi y xx k hy hx hk
      have harith : (x0 + a.w) + ((t.take i).map (fun a => a.w)).sum + xx
          = x0 + (((a :: t).take (i + 1)).map (fun a => a.w)).sum + xx := by
        rw [List.take_succ_cons, List.map_cons, List.sum_cons]
        omega
      rw [harith]
      exact hdata (i + 1) (by simpa using hi) y xx k hy hx hk

/-- `_get_bounding_shape` succeeds with (max height, summed width, shared
trailing dims) when all samples share the first sample's trailing
dimensions. -/
theorem bounding_shape_ok {α : Type} (a0 : Sample α) (rest : List (Sample α))
    (htr : ∀ x ∈ a0 :: rest, x.tr = a0.tr) :
    _get_bounding_shape (Sample.shape a0 :: rest.map Sample.shape) =
      .ok (((a0 :: rest).map (fun a => a.h)).foldr max 0
        :: ((a0 :: rest).map (fun a => a.w)).sum :: a0.tr) := by
  simp only [_get_bounding_shape]
  rw [if_pos]
  · have e1 : (Sample.shape a0 :: rest.map Sample.shape).map (fun s => s.getD 0 0)
        = (a0 :: rest).map (fun a => a.h) := by
      simp only [List.map_cons, List.map_map]
      rfl
    have e2 : (Sample.shape a0 :: rest.map Sample.shape).map (fun s => s.getD 1 0)
        = (a0 :: rest).map (fun a => a.w) := by
      simp only [List.map_cons, List.map_map]
      rfl
    rw [e1, e2]
    rfl
  · rw [List.all_eq_true]
    intro s hs
    rw [decide_eq_true_eq]
    rcases List.mem_cons.mp hs with h | h
    · rw [h]
    · obtain ⟨x, hxmem, rfl⟩ := List.mem_map.mp h
      show (Sample.shape x).drop 2 = (Sample.shape a0).drop 2
      have hx : (Sample.shape x).drop 2 = x.tr := rfl
      have ha : (Sample.shape a0).drop 2 = a0.tr := rfl
      rw [hx, ha]
      exact htr x (List.mem_cons_of_mem a0 hxmem)

/-- C2 amended: for a non-empty list of samples sharing dtype and trailing
dimensions, at least one of which has no zero-sized dimension,
`decompress_multiple` of `compress_multiple` with the same shape list, shared
dtype and identifier reproduces the samples element-wise — for the byte-type
identifier given the lz4 round-trip facts at the packed stream, and for every
non-`apng` (lossless) image identifier given the image-codec round-trip at
the bounding canvas.  (When every sample is zero-sized the packed blob is
empty and `decompress_multiple` instead returns the empty list — the
counterexample.) -/
theorem tiler_roundtrip {α : Type} (K : Codecs α) (a0 : Sample α)
    (rest : List (Sample α)) (d : String)
    (hdt : ∀ a ∈ a0 :: rest, a.dtype = d)
    (htr : ∀ a ∈ a0 :: rest, a.tr = a0.tr)
    (hnz : ∃ a ∈ a0 :: rest, 0 ∉ Sample.shape a)
    (henc : ∀ a, (K.cd.enc a).length = K.cd.itemsize)
    (hdec : ∀ a, K.cd.dec (K.cd.enc a) = a)
    (hpos : 0 < K.cd.itemsize) :
    (K.numcodecsDecompress (K.numcodecsCompress
        (((a0 :: rest).map (fun arr => arr.tobytes K.cd)).flatten)) =
        ((a0 :: rest).map (fun arr => arr.tobytes K.cd)).flatten →
     K.numcodecsCompress (((a0 :: rest).map (fun arr => arr.tobytes K.cd)).flatten)
        ≠ [] →
     K.numcodecsCompress (((a0 :: rest).map (fun arr => arr.tobytes K.cd)).flatten)
        ≠ LZ4_EMPTY_MARKER →
     (K.numcodecsCompress (((a0 :: rest).map (fun arr => arr.tobytes K.cd)).flatten)).take 4
        ≠ LZ4_FRAME_MAGIC →
     ∃ blob outs,
       compress_multiple K (a0 :: rest) (some ("lz4")) = .ok blob ∧
       decompress_multiple K blob ((a0 :: rest).map Sample.shape) d (some ("lz4")) =
         .ok outs ∧
       List.Forall₂ Sample.PEq outs (a0 :: rest)) ∧
    (∀ c, c ∈ IMAGE_COMPRESSIONS → c ≠ "apng" →
     (K.imgDec (K.imgEnc (tiler_canvas K.cd.zero d a0 rest))).PEq
        (tiler_canvas K.cd.zero d a0 rest) →
     K.imgEnc (tiler_canvas K.cd.zero d a0 rest) ≠ [] →
     ∃ blob outs,
       compress_multiple K (a0 :: rest) (some c) = .ok blob ∧
       decompress_multiple K blob ((a0 :: rest).map Sample.shape) d (some c) =
         .ok outs ∧
       List.Forall₂ Sample.PEq outs (a0 :: rest)) := by
  have hfind : (a0 :: rest).find? (fun x => x.dtype != a0.dtype) = none := by
    rw [List.find?_eq_none]
    intro x hx
    simp [hdt x hx, hdt a0 (List.mem_cons_self a0 rest)]
  obtain ⟨aw, hawmem, hawnz⟩ := hnz
  have hawfacts : ¬ (0 = aw.h) ∧ ¬ (0 = aw.w) ∧ ¬ (0 ∈ aw.tr) := by
    simpa [Sample.shape, List.mem_cons, not_or] using hawnz
  obtain ⟨hawh, haww, hawtr⟩ := hawfacts
  have hawch : 0 < aw.channels := by
    rw [Sample.channels]
    rcases Nat.eq_zero_or_pos aw.tr.prod with h | h
    · exact absurd (List.prod_eq_zero_iff.mp h) hawtr
    · exact h
  constructor
  · -- byte path
    intro hrt hne hnm hnmagic
    have hbufne : ((a0 :: rest).map (fun arr => arr.tobytes K.cd)).flatten ≠ [] := by
      intro hbe
      have hlz := congrArg List.length hbe
      rw [List.length_flatten, List.length_nil] at hlz
      have hmem : (aw.tobytes K.cd).length ∈
          ((a0 :: rest).map (fun arr => arr.tobytes K.cd)).map List.length :=
        List.mem_map_of_mem _ (List.mem_map_of_mem _ hawmem)
      have hz := (List.sum_eq_zero_iff.mp hlz) _ hmem
      rw [tobytes_length K.cd henc aw, shape_prod] at hz
      have : 0 < aw.h * (aw.w * aw.channels) * K.cd.itemsize :=
        Nat.mul_pos (Nat.mul_pos (by omega) (Nat.mul_pos (by omega) hawch)) hpos
      omega
    have hbyte : get_compression_type (some ("lz4")) = .ok (some .byte) := by decide
    have hcomp : compress_multiple K (a0 :: rest) (some ("lz4")) =
        .ok (K.numcodecsCompress
          (((a0 :: rest).map (fun arr => arr.tobytes K.cd)).flatten)) := by
      simp only [compress_multiple]
      rw [hfind, hbyte]
      dsimp only
      rw [if_pos rfl]
      have hcb : compress_bytes (((a0 :: rest).map (fun arr => arr.tobytes K.cd)).flatten)
          (some ("lz4")) = .ok (.viaNumcodecsCompress
            (((a0 :: rest).map (fun arr => arr.tobytes K.cd)).flatten)) := by
        simp only [compress_bytes, if_true]
        rw [if_neg hbufne, if_neg hbufne]
      rw [hcb]
      dsimp only [ByteEncode.run]
    have hdb : decompress_bytes K.lz4Installed
        (K.numcodecsCompress (((a0 :: rest).map (fun arr => arr.tobytes K.cd)).flatten))
        (some ("lz4")) = .ok (.viaNumcodecs
          (K.numcodecsCompress
            (((a0 :: rest).map (fun arr => arr.tobytes K.cd)).flatten))) := by
      simp only [decompress_bytes, if_true]
      rw [if_neg hne, if_neg hnm, if_neg hnmagic]
    have hdcomp : decompress_multiple K
        (K.numcodecsCompress (((a0 :: rest).map (fun arr => arr.tobytes K.cd)).flatten))
        ((a0 :: rest).map Sample.shape) d (some ("lz4")) =
        .ok (byte_slice_arrays K.cd d
          (((a0 :: rest).map (fun arr => arr.tobytes K.cd)).flatten)
          ((a0 :: rest).map Sample.shape)) := by
      simp only [decompress_multiple]
      rw [if_neg hne, hbyte]
      dsimp only
      rw [if_pos rfl, hdb]
      dsimp only [ByteDecode.run]
      rw [hrt]
    exact ⟨_, _, hcomp, hdcomp, byte_slices_concat K.cd henc hdec d (a0 :: rest) hdt⟩
  · -- canvas path
    intro c hcim hcapng hPEq hne
    have himg : get_compression_type (some c) = .ok (some .image) := get_type_image c hcim
    have hmaxh : 0 < ((a0 :: rest).map (fun a => a.h)).foldr max 0 :=
      Nat.lt_of_lt_of_le (by omega)
        (mem_le_foldr_max _ aw.h (List.mem_map_of_mem _ hawmem))
    have hsumw : 0 < ((a0 :: rest).map (fun a => a.w)).sum :=
      Nat.lt_of_lt_of_le (by omega)
        (List.single_le_sum (fun x _ => Nat.zero_le x) _
          (List.mem_map_of_mem _ hawmem))
    have hcv_dtype : (tiler_canvas K.cd.zero d a0 rest).dtype = d := by
      unfold tiler_canvas
      rw [place_all_dtype]
      rfl
    have hcv_h : (tiler_canvas K.cd.zero d a0 rest).h =
        ((a0 :: rest).map (fun a => a.h)).foldr max 0 := by
      unfold tiler_canvas
      rw [place_all_h]
      rfl
    have hcv_w : (tiler_canvas K.cd.zero d a0 rest).w =
        ((a0 :: rest).map (fun a => a.w)).sum := by
      unfold tiler_canvas
      rw [place_all_w]
      rfl
    have hcv_tr : (tiler_canvas K.cd.zero d a0 rest).tr = a0.tr := by
      unfold tiler_canvas
      rw [place_all_tr]
      rfl
    have hshape0 : ¬ (0 ∈ Sample.shape (tiler_canvas K.cd.zero d a0 rest)) := by
      rw [Sample.shape, hcv_h, hcv_w, hcv_tr]
      simp only [List.mem_cons, not_or]
      refine ⟨by omega, by omega, ?_⟩
      rw [← htr aw hawmem]
      exact hawtr
    have hcad : compress_array_data K (tiler_canvas K.cd.zero d a0 rest) (some c) =
        .ok (K.imgEnc (tiler_canvas K.cd.zero d a0 rest)) := by
      simp only [compress_array_data]
      rw [if_neg hshape0,
        if_neg (not_not_intro (mem_hub_of_image c hcim)), himg]
      dsimp only
      rw [if_neg (by decide : ¬ ((some CompressionType.image : Option CompressionType)
          = some .byte)),
        if_neg (by decide : ¬ ((some CompressionType.image : Option CompressionType)
          = some .audio)),
        if_neg (by decide : ¬ ((some CompressionType.image : Option CompressionType)
          = some .video)),
        if_neg hcapng]
    have hcomp : compress_multiple K (a0 :: rest) (some c) =
        .ok (K.imgEnc (tiler_canvas K.cd.zero d a0 rest)) := by
      simp only [compress_multiple]
      rw [hfind, himg]
      dsimp only
      rw [if_neg (by decide : ¬ ((some CompressionType.image : Option CompressionType)
          = some .byte)),
        if_neg (by decide : ¬ ((some CompressionType.image : Option CompressionType)
          = some .audio)),
        if_neg (by decide : ¬ ((some CompressionType.image : Option CompressionType)
          = some .video)),
        if_neg (by simp [hcapng] : ¬ ((some c : Option String) = some ("apng")))]
      rw [List.map_cons, bounding_shape_ok a0 rest htr]
      dsimp only
      rw [hdt a0 (List.mem_cons_self a0 rest)]
      exact hcad
    have hdcomp : decompress_multiple K
        (K.imgEnc (tiler_canvas K.cd.zero d a0 rest))
        ((a0 :: rest).map Sample.shape) d (some c) =
        .ok (canvas_slice_arrays
          (K.imgDec (K.imgEnc (tiler_canvas K.cd.zero d a0 rest)))
          ((a0 :: rest).map Sample.shape) 0) := by
      simp only [decompress_multiple]
      rw [if_neg hne, himg]
      dsimp only
      rw [if_neg (by decide : ¬ ((some CompressionType.image : Option CompressionType)
          = some .byte))]
    obtain ⟨e_dt, e_h, e_w, e_tr, e_data⟩ := hPEq
    refine ⟨_, _, hcomp, hdcomp, canvas_slices_correct _ (a0 :: rest) 0 ?_ ?_ ?_ ?_ ?_⟩
    · intro a ha
      rw [e_dt, hcv_dtype]
      exact hdt a ha
    · intro a ha
      rw [e_tr, hcv_tr]
      exact htr a ha
    · intro a ha
      rw [e_h, hcv_h]
      exact mem_le_foldr_max _ a.h (List.mem_map_of_mem _ ha)
    · rw [e_w, hcv_w]
      omega
    · intro i hi y xx k hy hx hk
      have hget_mem : (a0 :: rest).get ⟨i, hi⟩ ∈ a0 :: rest := List.get_mem _ _ _
      have hylt : y < (tiler_canvas K.cd.zero d a0 rest).h := by
        rw [hcv_h]
        exact Nat.lt_of_lt_of_le hy
          (mem_le_foldr_max _ _ (List.mem_map_of_mem _ hget_mem))
      have hsum_le : (((a0 :: rest).take i).map (fun a => a.w)).sum +
          ((a0 :: rest).get ⟨i, hi⟩).w ≤ ((a0 :: rest).map (fun a => a.w)).sum := by
        have h1 := take_get_sum_le ((a0 :: rest).map (fun a => a.w)) i
          (by simpa using hi)
        rw [← List.map_take] at h1
        rw [List.get_map] at h1
        exact h1
      have hxlt : 0 + (((a0 :: rest).take i).map (fun a => a.w)).sum + xx <
          (tiler_canvas K.cd.zero d a0 rest).w := by
        rw [hcv_w]
        omega
      have hklt : k < (tiler_canvas K.cd.zero d a0 rest).channels := by
        rw [Sample.channels, hcv_tr, ← htr _ hget_mem]
        exact hk
      have step1 := e_data y (by rw [e_h]; exact hylt) _
        (by rw [e_w]; exact hxlt) k
        (by
          have hch : (K.imgDec (K.imgEnc (tiler_canvas K.cd.zero d a0 rest))).channels
              = (tiler_canvas K.cd.zero d a0 rest).channels := by
            simp only [Sample.channels, e_tr]
          rw [hch]
          exact hklt)
      rw [step1]
      show (place_all (zeros_sample K.cd.zero d _) (a0 :: rest) 0).data y _ k = _
      exact place_all_region (a0 :: rest) i hi _ 0 y xx k hy hx

/-- Witness for C2: two concrete samples of shapes (1,2) and (2,1) round-trip
through both the byte path and the image-canvas path with concrete codecs
satisfying the round-trip hypotheses at the packed data. -/
theorem tiler_roundtrip_witness :
    (∀ a ∈ [(⟨"u8", 1, 2, [], fun _ _ _ => 3⟩ : Sample UInt8),
        ⟨"u8", 2, 1, [], fun _ _ _ => 7⟩], a.dtype = "u8") ∧
    (∀ a ∈ [(⟨"u8", 1, 2, [], fun _ _ _ => 3⟩ : Sample UInt8),
        ⟨"u8", 2, 1, [], fun _ _ _ => 7⟩], a.tr = ([] : List Nat)) ∧
    (∃ a ∈ [(⟨"u8", 1, 2, [], fun _ _ _ => 3⟩ : Sample UInt8),
        ⟨"u8", 2, 1, [], fun _ _ _ => 7⟩], 0 ∉ Sample.shape a) ∧
    (∃ blob outs,
      compress_multiple (α := UInt8)
        ⟨⟨0, 1, fun a => [a], fun l => l.headD 0⟩, fun _ => [1],
          fun _ => tiler_canvas 0 ("u8") ⟨"u8", 1, 2, [], fun _ _ _ => 3⟩
            [⟨"u8", 2, 1, [], fun _ _ _ => 7⟩],
          fun _ => [], fun b => 0xAB :: b, fun b => b.drop 1, fun b => b, true⟩
        [⟨"u8", 1, 2, [], fun _ _ _ => 3⟩, ⟨"u8", 2, 1, [], fun _ _ _ => 7⟩]
        (some ("lz4")) = .ok blob ∧
      decompress_multiple (α := UInt8)
        ⟨⟨0, 1, fun a => [a], fun l => l.headD 0⟩, fun _ => [1],
          fun _ => tiler_canvas 0 ("u8") ⟨"u8", 1, 2, [], fun _ _ _ => 3⟩
            [⟨"u8", 2, 1, [], fun _ _ _ => 7⟩],
          fun _ => [], fun b => 0xAB :: b, fun b => b.drop 1, fun b => b, true⟩
        blob
        ([(⟨"u8", 1, 2, [], fun _ _ _ => 3⟩ : Sample UInt8),
          ⟨"u8", 2, 1, [], fun _ _ _ => 7⟩].map Sample.shape) ("u8")
        (some ("lz4")) = .ok outs ∧
      List.Forall₂ Sample.PEq outs
        [⟨"u8", 1, 2, [], fun _ _ _ => 3⟩, ⟨"u8", 2, 1, [], fun _ _ _ => 7⟩]) ∧
    (∃ blob outs,
      compress_multiple (α := UInt8)
        ⟨⟨0, 1, fun a => [a], fun l => l.headD 0⟩, fun _ => [1],
          fun _ => tiler_canvas 0 ("u8") ⟨"u8", 1, 2, [], fun _ _ _ => 3⟩
            [⟨"u8", 2, 1, [], fun _ _ _ => 7⟩],
          fun _ => [], fun b => 0xAB :: b, fun b => b.drop 1, fun b => b, true⟩
        [⟨"u8", 1, 2, [], fun _ _ _ => 3⟩, ⟨"u8", 2, 1, [], fun _ _ _ => 7⟩]
        (some ("png")) = .ok blob ∧
      decompress_multiple (α := UInt8)
        ⟨⟨0, 1, fun a => [a], fun l => l.headD 0⟩, fun _ => [1],
          fun _ => tiler_canvas 0 ("u8") ⟨"u8", 1, 2, [], fun _ _ _ => 3⟩
            [⟨"u8", 2, 1, [], fun _ _ _ => 7⟩],
          fun _ => [], fun b => 0xAB :: b, fun b => b.drop 1, fun b => b, true⟩
        blob
        ([(⟨"u8", 1, 2, [], fun _ _ _ => 3⟩ : Sample UInt8),
          ⟨"u8", 2, 1, [], fun _ _ _ => 7⟩].map Sample.shape) ("u8")
        (some ("png")) = .ok outs ∧
      List.Forall₂ Sample.PEq outs
        [⟨"u8", 1, 2, [], fun _ _ _ => 3⟩, ⟨"u8", 2, 1, [], fun _ _ _ => 7⟩]) := by
  refine ⟨by decide, by decide, by decide, ?_, ?_⟩
  · exact (tiler_roundtrip
      ⟨⟨0, 1, fun a => [a], fun l => l.headD 0⟩, fun _ => [1],
        fun _ => tiler_canvas 0 ("u8") ⟨"u8", 1, 2, [], fun _ _ _ => 3⟩
          [⟨"u8", 2, 1, [], fun _ _ _ => 7⟩],
        fun _ => [], fun b => 0xAB :: b, fun b => b.drop 1, fun b => b, true⟩
      ⟨"u8", 1, 2, [], fun _ _ _ => 3⟩ [⟨"u8", 2, 1, [], fun _ _ _ => 7⟩] "u8"
      (by decide) (by decide) (by decide) (fun a => rfl) (fun a => rfl)
      (by decide)).1 (by decide) (by decide) (by decide) (by decide)
  · exact (tiler_roundtrip
      ⟨⟨0, 1, fun a => [a], fun l => l.headD 0⟩, fun _ => [1],
        fun _ => tiler_canvas 0 ("u8") ⟨"u8", 1, 2, [], fun _ _ _ => 3⟩
          [⟨"u8", 2, 1, [], fun _ _ _ => 7⟩],
        fun _ => [], fun b => 0xAB :: b, fun b => b.drop 1, fun b => b, true⟩
      ⟨"u8", 1, 2, [], fun _ _ _ => 3⟩ [⟨"u8", 2, 1, [], fun _ _ _ => 7⟩] "u8"
      (by decide) (by decide) (by decide) (fun a => rfl) (fun a => rfl)
      (by decide)).2 "png" (by decide) (by decide) (Sample.PEq_refl _) (by decide)

/-- C2 counterexample: when every sample is zero-sized the packed blob is
empty, and `decompress_multiple` returns the empty list rather than a list of
empty arrays matching the inputs — the round-trip fails for a non-empty
sequence of (all zero-sized) samples. -/
theorem tiler_empty_counterexample :
    compress_multiple (α := UInt8)
      ⟨⟨0, 1, fun a => [a], fun l => l.headD 0⟩, fun _ => [],
        fun _ => ⟨"", 0, 0, [], fun _ _ _ => 0⟩, fun _ => [],
        fun b => b, fun b => b, fun b => b, true⟩
      [⟨"u8", 0, 1, [], fun _ _ _ => 0⟩] (some ("lz4")) = .ok [] ∧
    decompress_multiple (α := UInt8)
      ⟨⟨0, 1, fun a => [a], fun l => l.headD 0⟩, fun _ => [],
        fun _ => ⟨"", 0, 0, [], fun _ _ _ => 0⟩, fun _ => [],
        fun b => b, fun b => b, fun b => b, true⟩
      [] [[0, 1]] ("u8") (some ("lz4")) = .ok [] ∧
    ¬ List.Forall₂ Sample.PEq ([] : List (Sample UInt8))
      [⟨"u8", 0, 1, [], fun _ _ _ => 0⟩] :=
  ⟨by decide, rfl, fun h => nomatch h⟩

end Hub
